import Mathlib

set_option linter.unusedVariables false

/-!
Verification of the matching-and-loss engine and output-decoding pipeline of
`src/Networks/CDETR/conditional_detr.py` (a Conditional-DETR style point
detector with a multi-resolution density-map decoder).

Tensors are embedded shallowly as nested lists of rationals; the batch,
query, class and coordinate dimensions become list nesting levels.  Learned
layers (convolution stacks) and torch library primitives that live outside
the repository (bilinear upsampling, softmax, sigmoid, the focal-loss
primitive from the segmentation module, `accuracy` from `util.misc`) are
abstract function parameters: every theorem below holds for all of their
instantiations, and counterexamples instantiate them with realisable
values (for instance a 1x1 convolution with zero weights).
-/

/-- A feature map: the flattened spatial values of one image (the density
branch works on a single channel, so one list of rationals per image). -/
abbrev FMap := List ℚ

/-- Element-wise `F.relu` on a feature map. -/
def reluFM (m : FMap) : FMap := m.map (fun v => max v 0)

/-- The numerical-stability epsilon `1e-6` used by every density
normalisation in `dm_decoder2.forward`. -/
def dmEps : ℚ := 1 / 1000000

/-- External torch primitives used by `dm_decoder2.forward`, abstracted:
`upsample s` models `F.upsample_bilinear(..., scale_factor=s)`;
`softmax4` models `F.softmax(weighting, dim=1)` followed by the four
channel slices `weighting[:, 0:1] ... weighting[:, 3:4]`. -/
structure TorchOps where
  upsample : ℚ → FMap → FMap
  softmax4 : FMap → FMap × FMap × FMap × FMap

/-- The learned layers of `dm_decoder2` (each `nn.Sequential` of
convolutions and ReLUs is one abstract map on feature maps).  The source
binds `self.layer7 = self.layer5 = nn.Sequential(...)` in one chained
assignment, so the model has a single field `layer7` and `layer5` is an
accessor for the same function. -/
structure DmDecoder2 where
  reg_layer : FMap → FMap
  reglayer1 : FMap → FMap
  reglayer2 : FMap → FMap
  reglayer3 : FMap → FMap
  density_layer : FMap → FMap
  density_layer1 : FMap → FMap
  reg_layer2 : FMap → FMap
  layer1 : FMap → FMap
  layer2 : FMap → FMap
  layer3 : FMap → FMap
  layer4 : FMap → FMap
  layer6 : FMap → FMap
  layer7 : FMap → FMap
  conv_weight : FMap → FMap

/-- `self.layer5` after `__init__` finishes: the chained assignment
`self.layer7 = self.layer5 = nn.Sequential(...)` leaves both names bound to
the same module. -/
def DmDecoder2.layer5 (d : DmDecoder2) : FMap → FMap := d.layer7

/-- Element-wise product of two feature maps (broadcast multiplication of a
feature map by a weighting channel). -/
def emul (a b : FMap) : FMap := List.zipWith (fun x y => x * y) a b

/-- Element-wise sum of two feature maps. -/
def eadd (a b : FMap) : FMap := List.zipWith (fun x y => x + y) a b

/-- `dm_decoder2.forward(shallow_feature, medium_feature, deep_feature, x,
decoding_arch)` (source lines 266-344), per image.  The three strategies
`norm`, `multi_resolution_loss` and `feature_weighting` are modelled
line-by-line; a `decoding_arch` outside these three falls off the end of
the Python function body, which returns `None`. -/
def DmDecoder2.forward (T : TorchOps) (d : DmDecoder2)
    (shallow_feature medium_feature deep_feature x : FMap)
    (decoding_arch : String) : Option (List FMap) :=
  if decoding_arch = "norm" then
    let x1 := T.upsample 2 x
    let x2 := d.reg_layer x1
    let mu := d.density_layer x2
    let mu2 := reluFM mu
    let mu2_sum := mu2.sum
    let mu2_normed := mu2.map (fun v => v / (mu2_sum + dmEps))
    let shallow0 := T.upsample (1/2) shallow_feature
    let shallow := d.reglayer1 shallow0
    let mu_shallow := d.density_layer shallow
    let mu2_shallow := reluFM mu_shallow
    let mu2_sum_shallow := mu2_shallow.sum
    let mu2_normed_shallow := mu2_shallow.map (fun v => v / (mu2_sum_shallow + dmEps))
    let medium := d.reglayer2 medium_feature
    let mu_medium := d.density_layer medium
    let mu2_medium := reluFM mu_medium
    let mu2_sum_medium := mu2_medium.sum
    let mu2_normed_medium := mu2_medium.map (fun v => v / (mu2_sum_medium + dmEps))
    let deep0 := T.upsample 2 deep_feature
    let deep := d.reglayer3 deep0
    let mu_deep := d.density_layer deep
    let mu2_deep := reluFM mu_deep
    let mu2_sum_deep := mu2_deep.sum
    let mu2_normed_deep := mu2_deep.map (fun v => v / (mu2_sum_deep + dmEps))
    some [d.reg_layer2 x2, mu2, mu2_normed,
          d.reg_layer2 shallow, mu2_shallow, mu2_normed_shallow,
          d.reg_layer2 medium, mu2_medium, mu2_normed_medium,
          d.reg_layer2 deep, mu2_deep, mu2_normed_deep]
  else if decoding_arch = "multi_resolution_loss" then
    let x1 := d.layer1 x
    let ft0 := x1 ++ deep_feature
    let ft1 := T.upsample 2 ft0
    let ft2a := d.layer2 ft1
    let ft3 := ft2a ++ medium_feature
    let ft4 := T.upsample 2 ft3
    let ft5 := d.layer3 ft4
    let ft6 := ft5 ++ shallow_feature
    let ft7 := T.upsample (1/2) ft6
    let ft := d.layer5 ft7
    let ft1d := d.density_layer ft
    let ft2 := reluFM ft1d
    let ft2_sum := ft2.sum
    let ft2_normed := ft2.map (fun v => v / (ft2_sum + dmEps))
    some [d.reg_layer2 ft, ft2, ft2_normed]
  else if decoding_arch = "feature_weighting" then
    let x_up := d.layer6 (T.upsample 4 x)
    let deep_feature_up := d.layer3 (T.upsample 4 deep_feature)
    let medium_feature_up := d.layer7 (T.upsample 2 medium_feature)
    let ft_weighting := (x_up ++ deep_feature_up) ++ (medium_feature_up ++ shallow_feature)
    let weighting := T.softmax4 (d.conv_weight ft_weighting)
    let ftw := eadd (eadd (emul x_up weighting.1) (emul deep_feature_up weighting.2.1))
                    (eadd (emul medium_feature_up weighting.2.2.1)
                          (emul shallow_feature weighting.2.2.2))
    let ftd := T.upsample (1/2) ftw
    let ft := d.reglayer1 ftd
    let ft1d := d.density_layer ft
    let ft2 := reluFM ft1d
    let ft2_sum := ft2.sum
    let ft2_normed := ft2.map (fun v => v / (ft2_sum + dmEps))
    some [d.reg_layer2 ft, ft2, ft2_normed]
  else
    none

/-- The positions of the spatially-normalised density maps inside the value
returned by `dm_decoder2.forward`: four of them for the `norm` strategy
(the current, shallow, medium and deep sources), one for the two fused
strategies.  Each is immediately preceded by its rectified raw map. -/
def normedIdx (arch : String) : List ℕ :=
  if arch = "norm" then [2, 5, 8, 11] else [2]

/-- A trivial instantiation of the torch primitives, used for concrete
evaluations. -/
def torchId : TorchOps := { upsample := fun _ m => m, softmax4 := fun m => (m, m, m, m) }

/-- A decoder all of whose convolution stacks are the identity except the
final 1x1 density projection, which is the constant map `fun _ => dm`:
realisable by a 1x1 convolution with zero weights and bias `dm`. -/
def dmConstDecoder (dm : FMap) : DmDecoder2 :=
  { reg_layer := id, reglayer1 := id, reglayer2 := id, reglayer3 := id,
    density_layer := fun _ => dm, density_layer1 := id, reg_layer2 := id,
    layer1 := id, layer2 := id, layer3 := id, layer4 := id,
    layer6 := id, layer7 := id, conv_weight := id }


/-- A batch-major rank-3 tensor: batch, then query slots, then the class or
coordinate dimension. -/
abbrev Tens3 := List (List (List ℚ))

/-- One per-image ground-truth record: integer class labels and the
corresponding point vectors. -/
structure Target where
  labels : List ℕ
  points : List (List ℚ)
deriving Inhabited

/-- The per-layer output mapping: `pred_logits` (B x Q x C), `pred_points`
(B x Q x P), and the optional `pred_masks` entry. -/
structure LayerOutputs where
  pred_logits : Tens3
  pred_points : Tens3
  pred_masks : Option Tens3 := none
deriving Inhabited

/-- The full output mapping of the model, with the optional `aux_outputs`
sequence of per-decoder-layer outputs. -/
structure Outputs where
  pred_logits : Tens3
  pred_points : Tens3
  pred_masks : Option Tens3 := none
  aux_outputs : Option (List LayerOutputs) := none

/-- `outputs` with the `aux_outputs` key removed (what the matcher and the
per-layer loss functions consume). -/
def Outputs.toLayer (o : Outputs) : LayerOutputs :=
  { pred_logits := o.pred_logits, pred_points := o.pred_points, pred_masks := o.pred_masks }

/-- The matching for one batch: for each image, the matched prediction
indices and the matched target indices (two equal-length sequences). -/
abbrev Indices := List (List ℕ × List ℕ)

/-- External functions from outside `src/` that the criterion calls,
abstracted so every theorem holds for all instantiations:
`focalTerm alpha gamma logit target` is the element-wise focal-loss term of
the `sigmoid_focal_loss` primitive (segmentation module); `accuracy` is
`util.misc.accuracy(...)[0]`; `mask_focal` and `mask_dice` summarise the
external mask-loss computations; `sigmoid` is `torch.sigmoid`. -/
structure ExtFuns where
  focalTerm : ℚ → ℚ → ℚ → ℚ → ℚ
  accuracy : List (List ℚ) → List ℕ → ℚ
  mask_focal : Tens3 → List Target → Indices → ℚ → ℚ
  mask_dice : Tens3 → List Target → Indices → ℚ → ℚ
  sigmoid : ℚ → ℚ

/-- Modelled from the spec: the distributed execution context
(`is_dist_avail_and_initialized`, `get_world_size` and
`torch.distributed.all_reduce` live in `util.misc` and torch, outside
`src/`).  `dist_avail` is the value of `is_dist_avail_and_initialized()`;
`world_size` is the number of workers when distributed training is active
(`get_world_size()` returns 1 otherwise); `peer_sum` is the contribution of
the other workers to the `all_reduce` sum. -/
structure DistCtx where
  dist_avail : Bool
  world_size : ℕ
  peer_sum : ℚ

/-- The `SetCriterion` module state: number of real classes (the no-object
class has index `num_classes`), the matcher (an external collaborator,
`matcher.py` is outside the modelled core), the requested loss names, the
focal alpha, and the `with_weights` flag.  `weight_dict` is carried by the
Python object but never read inside `forward`, so it is omitted. -/
structure SetCriterion where
  num_classes : ℕ
  matcher : LayerOutputs → List Target → Indices
  focal_alpha : ℚ
  losses : List String
  with_weights : Bool := false

/-- One Python-dict assignment `d[k] = v`: replace the value in place when
the key is present, append the entry otherwise. -/
def updateEntry (d : List (String × ℚ)) (k : String) (v : ℚ) : List (String × ℚ) :=
  if d.any (fun kv => kv.1 == k) then
    d.map (fun kv => if kv.1 == k then (k, v) else kv)
  else d ++ [(k, v)]

/-- Python `d.update(new)`. -/
def dictUpdate (d new : List (String × ℚ)) : List (String × ℚ) :=
  new.foldl (fun acc kv => updateEntry acc kv.1 kv.2) d

/-- `SetCriterion._get_src_permutation_idx` (source lines 571-575): the
concatenated (image index, prediction index) pairs of the matching, the
list comprehension over `enumerate(indices)` becoming a map over
`List.range`. -/
def getSrcPermutationIdx (indices : Indices) : List (ℕ × ℕ) :=
  ((List.range indices.length).map
    (fun i => (indices.getD i ([], [])).1.map (fun s => (i, s)))).flatten

/-- Modelled from the spec: the external focal-loss primitive
`sigmoid_focal_loss` (imported from the segmentation module, which is not
under `src/`).  Per the spec it applies an element-wise binary focal term
with parameters alpha and gamma to each (logit, target) pair, averages over
the query-slot dimension (the per-slot averaging the classification loss
later compensates for), sums the rest, and divides by the normalizer. -/
def sigmoid_focal_loss (E : ExtFuns) (inputs targets : Tens3)
    (num_points alpha gamma : ℚ) : ℚ :=
  let Q : ℕ := (inputs.headD []).length
  (((inputs.zip targets).map (fun bt =>
      (((bt.1.zip bt.2).map (fun qt =>
          ((qt.1.zip qt.2).map (fun p => E.focalTerm alpha gamma p.1 p.2)).sum)).sum) / (Q:ℚ))).sum)
    / num_points

/-- One step of the Python tensor assignment `target_classes[idx] =
target_classes_o`: overwrite the entry at one (image, slot) pair (later
writes win, as in sequential tensor assignment). -/
def overrideAt (f : ℕ → ℕ → ℕ) (p : (ℕ × ℕ) × ℕ) : ℕ → ℕ → ℕ :=
  fun b q => if b = p.1.1 ∧ q = p.1.2 then p.2 else f b q

/-- `SetCriterion.loss_labels` (source lines 473-504).  `target_classes` is
the B x Q tensor filled with `num_classes` and overwritten at the matched
slots (tensor assignment becomes a fold of pointwise overrides, later
writes winning); the one-hot tensor is materialised over `B x Q x (C+1)`
by `scatter_` and its last class column is sliced away; when
`with_weights` is set the only `loss_ce` assignment is skipped and the
function dies with an UnboundLocalError. -/
def SetCriterion.loss_labels (c : SetCriterion) (E : ExtFuns) (o : LayerOutputs)
    (targets : List Target) (indices : Indices) (num_points : ℚ) (log : Bool) :
    Except String (List (String × ℚ)) :=
  let src_logits := o.pred_logits
  let B := src_logits.length
  let Q := (src_logits.headD []).length
  let C := ((src_logits.headD []).headD []).length
  let idx := getSrcPermutationIdx indices
  let target_classes_o : List ℕ :=
    ((List.range indices.length).map
      (fun i => (indices.getD i ([], [])).2.map
        (fun j => (targets.getD i default).labels.getD j 0))).flatten
  let target_classes : ℕ → ℕ → ℕ :=
    (idx.zip target_classes_o).foldl overrideAt (fun _ _ => c.num_classes)
  let target_classes_onehot : Tens3 :=
    (List.range B).map (fun b => (List.range Q).map (fun q =>
      ((List.range (C+1)).map (fun k => if target_classes b q = k then (1:ℚ) else 0)).dropLast))
  if c.with_weights then .error "UnboundLocalError: loss_ce"
  else
    .ok ([("loss_ce",
            sigmoid_focal_loss E src_logits target_classes_onehot num_points c.focal_alpha 2
              * (Q:ℚ))] ++
      (if log then
        [("class_error",
          100 - E.accuracy (idx.map (fun p => (src_logits.getD p.1 []).getD p.2 []))
                  target_classes_o)]
       else []))

/-- `torch.argmax(-1)` on one logits row: the index of the first maximal
entry. -/
def argmaxIdx (l : List ℚ) : ℕ :=
  (List.range l.length).foldl (fun best i => if l.getD best 0 < l.getD i 0 then i else best) 0

/-- `SetCriterion.loss_cardinality` (source lines 506-518): per image, the
number of slots whose arg-max class is not the last (no-object) class,
compared with the true target count by `F.l1_loss` (mean reduction over
the batch). -/
def SetCriterion.loss_cardinality (c : SetCriterion) (o : LayerOutputs)
    (targets : List Target) (indices : Indices) (num_points : ℚ) :
    List (String × ℚ) :=
  let pred_logits := o.pred_logits
  let C := ((pred_logits.headD []).headD []).length
  let tgt_lengths : List ℕ := targets.map (fun t => t.labels.length)
  let card_pred : List ℕ :=
    pred_logits.map (fun img => img.countP (fun row => decide (argmaxIdx row ≠ C - 1)))
  let card_err :=
    (((card_pred.zip tgt_lengths).map (fun p => |(p.1:ℚ) - (p.2:ℚ)|)).sum)
      / (pred_logits.length : ℚ)
  [("cardinality_error", card_err)]

/-- `SetCriterion.loss_points` (source lines 520-540): gather the matched
prediction rows and the concatenated matched target rows, take the
element-wise L1 distance (`F.l1_loss` with `reduction='none'`), sum
everything and divide by the normalizer. -/
def SetCriterion.loss_points (c : SetCriterion) (o : LayerOutputs)
    (targets : List Target) (indices : Indices) (num_points : ℚ) :
    List (String × ℚ) :=
  let idx := getSrcPermutationIdx indices
  let src_points := idx.map (fun p => (o.pred_points.getD p.1 []).getD p.2 [])
  let target_points : List (List ℚ) :=
    ((List.range indices.length).map
      (fun i => (indices.getD i ([], [])).2.map
        (fun j => (targets.getD i default).points.getD j []))).flatten
  let loss_point :=
    ((src_points.zip target_points).map
      (fun st => ((st.1.zip st.2).map (fun p => |p.1 - p.2|)).sum)).sum
  [("loss_point", loss_point / num_points)]

/-- `SetCriterion.loss_masks` (source lines 542-569): asserts that
`pred_masks` is present; the focal and Dice mask losses themselves call
external helpers (`nested_tensor_from_tensor_list`, `interpolate`,
`sigmoid_focal_loss`, `dice_loss`), summarised by the abstract
`mask_focal` / `mask_dice` functions. -/
def SetCriterion.loss_masks (c : SetCriterion) (E : ExtFuns) (o : LayerOutputs)
    (targets : List Target) (indices : Indices) (num_points : ℚ) :
    Except String (List (String × ℚ)) :=
  match o.pred_masks with
  | none => .error "AssertionError: pred_masks in outputs"
  | some m => .ok [("loss_mask", E.mask_focal m targets indices num_points),
                   ("loss_dice", E.mask_dice m targets indices num_points)]

/-- `SetCriterion.get_loss` (source lines 583-591): dispatch on the loss
name through `loss_map`; an unregistered name fails the assert
immediately.  The `log` keyword is consumed only by the labels loss. -/
def SetCriterion.get_loss (c : SetCriterion) (E : ExtFuns) (loss : String)
    (o : LayerOutputs) (targets : List Target) (indices : Indices)
    (num_points : ℚ) (log : Bool) : Except String (List (String × ℚ)) :=
  if loss = "labels" then c.loss_labels E o targets indices num_points log
  else if loss = "cardinality" then .ok (c.loss_cardinality o targets indices num_points)
  else if loss = "points" then .ok (c.loss_points o targets indices num_points)
  else if loss = "masks" then c.loss_masks E o targets indices num_points
  else .error ("AssertionError: do you really want to compute " ++ loss ++ " loss?")

/-- `SetCriterion.forward` (source lines 593-634): match the final layer,
compute the normalizer once (batch total target count, `all_reduce` when
distributed, divided by the world size, clamped below at 1), fold the
requested losses into the result dict, then, when `aux_outputs` is
present, re-match and recompute every non-mask loss per auxiliary layer
with logging disabled and the keys suffixed by the layer index. -/
def SetCriterion.forward (c : SetCriterion) (E : ExtFuns) (ctx : DistCtx)
    (outputs : Outputs) (targets : List Target) :
    Except String (List (String × ℚ)) :=
  let indices := c.matcher outputs.toLayer targets
  let n0 : ℚ := ((targets.map (fun t => t.labels.length)).sum : ℕ)
  let n1 : ℚ := if ctx.dist_avail then n0 + ctx.peer_sum else n0
  let num_points : ℚ := max (n1 / (if ctx.dist_avail then (ctx.world_size : ℚ) else 1)) 1
  match c.losses.foldlM
      (fun acc loss =>
        (c.get_loss E loss outputs.toLayer targets indices num_points true).map
          (fun d => dictUpdate acc d)) [] with
  | .error e => .error e
  | .ok final =>
    match outputs.aux_outputs with
    | none => .ok final
    | some auxs =>
      (List.range auxs.length).foldlM
        (fun acc i =>
          let aux := auxs.getD i default
          let indices := c.matcher aux targets
          c.losses.foldlM
            (fun acc2 loss =>
              if loss = "masks" then pure acc2
              else
                (c.get_loss E loss aux targets indices num_points
                    (if loss = "labels" then false else true)).map
                  (fun d => dictUpdate acc2
                    (d.map (fun kv => (kv.1 ++ "_" ++ Nat.repr i, kv.2)))))
            acc)
        final

/-- `SetCriterion.forward` with the target-count normalizer supplied as an
explicit parameter (the body after line 611 of the source, with
`num_points` free): the reference against which `forward` is shown to
compute the normalizer exactly once and hand the very same value to every
per-layer loss invocation. -/
def SetCriterion.forwardWith (c : SetCriterion) (E : ExtFuns)
    (outputs : Outputs) (targets : List Target) (num_points : ℚ) :
    Except String (List (String × ℚ)) :=
  let indices := c.matcher outputs.toLayer targets
  match c.losses.foldlM
      (fun acc loss =>
        (c.get_loss E loss outputs.toLayer targets indices num_points true).map
          (fun d => dictUpdate acc d)) [] with
  | .error e => .error e
  | .ok final =>
    match outputs.aux_outputs with
    | none => .ok final
    | some auxs =>
      (List.range auxs.length).foldlM
        (fun acc i =>
          let aux := auxs.getD i default
          let indices := c.matcher aux targets
          c.losses.foldlM
            (fun acc2 loss =>
              if loss = "masks" then pure acc2
              else
                (c.get_loss E loss aux targets indices num_points
                    (if loss = "labels" then false else true)).map
                  (fun d => dictUpdate acc2
                    (d.map (fun kv => (kv.1 ++ "_" ++ Nat.repr i, kv.2)))))
            acc)
        final

/-- Modelled from the spec: the geometric op `box_ops.box_cxcywh_to_xyxy`
(in `util/box_ops.py`, outside `src/`): center form (cx, cy, w, h) to
corner form (x0, y0, x1, y1), pure arithmetic, no clamping. -/
def box_cxcywh_to_xyxy (p : List ℚ) : List ℚ :=
  match p with
  | [cx, cy, w, h] => [cx - w/2, cy - h/2, cx + w/2, cy + h/2]
  | other => other

/-- One per-image result dict of `PostProcess.forward`. -/
structure PPRes where
  scores : List ℚ
  labels : List ℕ
  points : List (List ℚ)
deriving Inhabited

/-- The descending-score ordering `torch.topk` selects by, on
(score, flattened index) pairs. -/
def scoreGe (p q : ℚ × ℕ) : Prop := q.1 ≤ p.1

instance : DecidableRel scoreGe := fun p q => inferInstanceAs (Decidable (q.1 ≤ p.1))

instance : IsTotal (ℚ × ℕ) scoreGe := ⟨fun p q => le_total q.1 p.1⟩

instance : IsTrans (ℚ × ℕ) scoreGe := ⟨fun _ _ _ h1 h2 => le_trans h2 h1⟩

/-- `torch.topk(v, k)` on one flattened row: the first `k` (value, index)
pairs in descending value order (ties resolved deterministically; torch
leaves their order unspecified). -/
def topkDesc (v : List ℚ) (k : ℕ) : List (ℚ × ℕ) :=
  (List.insertionSort scoreGe
    ((List.range v.length).map (fun i => (v.getD i 0, i)))).take k

/-- `PostProcess.forward` (source lines 637-669): assert the batch sizes
agree and `target_sizes` has two columns, apply sigmoid, flatten the
query x class space per image, take the top 100 scores (`torch.topk`
raises when fewer than 100 entries exist), recover the query as
`index / C` and the label as `index % C`, convert the gathered points to
corner form and scale them by (w, h, w, h). -/
def PostProcess.forward (E : ExtFuns) (outputs : LayerOutputs)
    (target_sizes : List (List ℚ)) : Except String (List PPRes) :=
  let out_logits := outputs.pred_logits
  let out_point := outputs.pred_points
  if out_logits.length ≠ target_sizes.length then
    .error "AssertionError: len(out_logits) == len(target_sizes)"
  else if ¬ (target_sizes.all (fun r => r.length == 2)) then
    .error "AssertionError: target_sizes.shape[1] == 2"
  else
    let prob := out_logits.map (fun img => img.map (fun row => row.map E.sigmoid))
    let flatProb := prob.map List.flatten
    if ¬ (flatProb.all (fun v => 100 ≤ v.length)) then
      .error "RuntimeError: selected index k out of range"
    else
      let C := ((out_logits.headD []).headD []).length
      let pointsXyxy := out_point.map (fun img => img.map box_cxcywh_to_xyxy)
      .ok ((List.range out_logits.length).map (fun b =>
        let pairs := topkDesc (flatProb.getD b []) 100
        let img_h := (target_sizes.getD b []).getD 0 0
        let img_w := (target_sizes.getD b []).getD 1 0
        let scale_fct := [img_w, img_h, img_w, img_h]
        { scores := pairs.map (fun p => p.1),
          labels := pairs.map (fun p => p.2 % C),
          points := pairs.map (fun p =>
            List.zipWith (fun a s => a * s) ((pointsXyxy.getD b []).getD (p.2 / C) [])
              scale_fct) }))

/-- Well-formedness of a matching, as the matcher contract promises it: one
pair of equal-length index sequences per image, the prediction indices of
an image distinct and within the `Q` query slots, the target indices within
that image's target count. -/
def ValidIndices (Q : ℕ) (targets : List Target) (indices : Indices) : Prop :=
  indices.length = targets.length ∧
  (∀ p ∈ indices, p.1.length = p.2.length ∧ p.1.Nodup ∧ ∀ s ∈ p.1, s < Q) ∧
  (∀ bp ∈ indices.zip targets, ∀ j ∈ bp.1.2, j < bp.2.labels.length)

/-- The class the matching assigns to query slot `(b, q)`, if any: the
true class of the target matched with prediction `q` of image `b`. -/
def matchedClass (targets : List Target) (indices : Indices) (b q : ℕ) : Option ℕ :=
  (((indices.getD b ([], [])).1.zip (indices.getD b ([], [])).2).find?
      (fun p => p.1 == q)).map
    (fun p => (targets.getD b default).labels.getD p.2 0)

/-- The one-hot classification target exactly as claim C4 words it: a
B x Q x C tensor in which a matched slot carries the one-hot vector of its
target's true class and an unmatched slot is an all-zero row (the
no-object class is excluded from the support). -/
def specOnehot (targets : List Target) (indices : Indices) (B Q C : ℕ) : Tens3 :=
  (List.range B).map (fun b => (List.range Q).map (fun q =>
    (List.range C).map (fun k =>
      if matchedClass targets indices b q = some k then (1:ℚ) else 0)))

/-- The keys each registered loss contributes to the loss dict. -/
def lossKeys (loss : String) (log : Bool) : List String :=
  if loss = "labels" then "loss_ce" :: (if log then ["class_error"] else [])
  else if loss = "cardinality" then ["cardinality_error"]
  else if loss = "points" then ["loss_point"]
  else if loss = "masks" then ["loss_mask", "loss_dice"]
  else []

/-- A trivial instantiation of the external functions, used for concrete
evaluations. -/
def extZero : ExtFuns :=
  { focalTerm := fun _ _ _ _ => 0, accuracy := fun _ _ => 0,
    mask_focal := fun _ _ _ _ => 0, mask_dice := fun _ _ _ _ => 0,
    sigmoid := fun _ => 0 }

/-- A concrete one-image criterion whose matcher always matches prediction
slot 0 with target 0, used for concrete evaluations. -/
def critEx : SetCriterion :=
  { num_classes := 2, matcher := fun _ _ => [([0], [0])], focal_alpha := 1/4,
    losses := ["labels", "points", "cardinality"], with_weights := false }

/-- Concrete post-process inputs used for witnesses: one image, one query
slot, 100 classes. -/
def ppLogitsEx : Tens3 := [[List.replicate 100 0]]

/-- Concrete predicted points for the post-process witness. -/
def ppPointsEx : Tens3 := [[[1, 2, 3, 4]]]

/-- Concrete per-image (height, width) sizes for the post-process witness. -/
def ppSizesEx : List (List ℚ) := [[32, 32]]

/-- The decimal digit characters of a natural number, most significant
first: the reference implementation against which `Nat.repr` is related,
so that the auxiliary-layer key suffixes can be reasoned about. -/
def digitsRec (n : ℕ) : List Char :=
  if n < 10 then [Nat.digitChar n]
  else digitsRec (n / 10) ++ [Nat.digitChar (n % 10)]
termination_by n
decreasing_by exact Nat.div_lt_self (by omega) (by omega)

/-- The numeric value of a decimal digit character. -/
def digitVal (c : Char) : ℕ :=
  if c = '0' then 0 else if c = '1' then 1 else if c = '2' then 2 else
  if c = '3' then 3 else if c = '4' then 4 else if c = '5' then 5 else
  if c = '6' then 6 else if c = '7' then 7 else if c = '8' then 8 else 9

/-- Decimal parsing, a left inverse of `digitsRec`. -/
def ofDigits (l : List Char) : ℕ := l.foldl (fun a c => 10 * a + digitVal c) 0

/-- The entries one registered loss contributes to the loss dict (the
payload of a successful `get_loss` call). -/
def lossEntries (c : SetCriterion) (E : ExtFuns) (loss : String) (o : LayerOutputs)
    (targets : List Target) (indices : Indices) (num_points : ℚ) (log : Bool) :
    List (String × ℚ) :=
  (c.get_loss E loss o targets indices num_points log).toOption.getD []

/-- The loss name owning each result key: the inverse direction of
`lossKeys`, used to show the key sets of distinct loss names are
disjoint. -/
def lossOf (k : String) : String :=
  if k = "loss_ce" ∨ k = "class_error" then "labels"
  else if k = "cardinality_error" then "cardinality"
  else if k = "loss_point" then "points"
  else if k = "loss_mask" ∨ k = "loss_dice" then "masks"
  else ""

/-- A concrete non-distributed context, used for concrete evaluations. -/
def ctxEx : DistCtx := { dist_avail := false, world_size := 1, peer_sum := 0 }

/-- A concrete single auxiliary decoder layer output. -/
def layerEx : LayerOutputs :=
  { pred_logits := [[[0, 0, 0]]], pred_points := [[[0, 0, 0, 0]]] }

/-- A concrete outputs dict carrying one auxiliary layer. -/
def outEx : Outputs :=
  { pred_logits := [[[0, 0, 0]]], pred_points := [[[0, 0, 0, 0]]],
    aux_outputs := some [layerEx] }

/-- A concrete one-image target list. -/
def tgtEx : List Target := [{ labels := [0], points := [[0, 0, 0, 0]] }]

lemma reluFM_nonneg (m : FMap) : ∀ v ∈ reluFM m, 0 ≤ v := by
  intro v hv
  rcases List.mem_map.mp hv with ⟨w, _, rfl⟩
  exact le_max_right w 0

lemma reluFM_sum_nonneg (m : FMap) : 0 ≤ (reluFM m).sum :=
  List.sum_nonneg (reluFM_nonneg m)

lemma sum_map_div (l : List ℚ) (c : ℚ) :
    (l.map (fun v => v / c)).sum = l.sum / c := by
  induction l with
  | nil => simp
  | cons a t ih => simp [ih, add_div]

/-- Everything the amended C1 needs about one `relu` / spatial-sum /
epsilon-guarded-division normalisation block. -/
lemma normed_block_props (mu : FMap) :
    (∀ v ∈ (reluFM mu).map (fun v => v / ((reluFM mu).sum + dmEps)), 0 ≤ v) ∧
    ((reluFM mu).map (fun v => v / ((reluFM mu).sum + dmEps))).sum ≤ 1 ∧
    (1/100 ≤ (reluFM mu).sum →
      |((reluFM mu).map (fun v => v / ((reluFM mu).sum + dmEps))).sum - 1| ≤ 1/10000) := by
  set s := (reluFM mu).sum with hs
  have hs0 : 0 ≤ s := reluFM_sum_nonneg mu
  have hpos : 0 < s + dmEps := by
    have : (0:ℚ) < dmEps := by norm_num [dmEps]
    linarith
  have hsum : ((reluFM mu).map (fun v => v / (s + dmEps))).sum = s / (s + dmEps) := by
    rw [sum_map_div]
  refine ⟨?_, ?_, ?_⟩
  · intro v hv
    rcases List.mem_map.mp hv with ⟨w, hw, rfl⟩
    exact div_nonneg (reluFM_nonneg mu w hw) (le_of_lt hpos)
  · rw [hsum]
    rw [div_le_one hpos]
    have : (0:ℚ) < dmEps := by norm_num [dmEps]
    linarith
  · intro hge
    rw [hsum]
    have hne : s + dmEps ≠ 0 := ne_of_gt hpos
    have heq : s / (s + dmEps) - 1 = -(dmEps / (s + dmEps)) := by
      field_simp
    rw [heq, abs_neg, abs_of_nonneg (div_nonneg (by norm_num [dmEps]) (le_of_lt hpos))]
    rw [div_le_iff₀ hpos]
    have : (1:ℚ)/100 + dmEps ≤ s + dmEps := by linarith
    norm_num [dmEps] at this ⊢
    linarith

/-- Claim C1 (amended): for every strategy and every input, each normalised
density map returned by `dm_decoder2.forward` is element-wise non-negative
and its spatial sum is at most 1; the sum equals 1 within 1e-4 tolerance
provided the rectified raw density map that precedes it has spatial sum at
least 1/100.  (As stated the claim fails: with an all-zero raw density the
epsilon-guarded division returns an all-zero map whose sum is 0.) -/
theorem dm_decoder2_normalisation (T : TorchOps) (d : DmDecoder2)
    (shallow medium deep x : FMap) (arch : String)
    (harch : arch ∈ ["norm", "multi_resolution_loss", "feature_weighting"]) :
    ∀ i ∈ normedIdx arch,
      (∀ v ∈ ((DmDecoder2.forward T d shallow medium deep x arch).getD []).getD i [],
          0 ≤ v) ∧
      (((DmDecoder2.forward T d shallow medium deep x arch).getD []).getD i []).sum ≤ 1 ∧
      (1/100 ≤ (((DmDecoder2.forward T d shallow medium deep x arch).getD []).getD (i-1) []).sum →
        |(((DmDecoder2.forward T d shallow medium deep x arch).getD []).getD i []).sum - 1|
          ≤ 1/10000) := by
  intro i hi
  fin_cases harch <;> simp only [normedIdx, if_pos rfl, reduceIte] at hi <;>
    fin_cases hi <;>
    simp only [DmDecoder2.forward, if_pos rfl, reduceIte, Option.getD_some, List.getD] <;>
    simpa using normed_block_props _

/-- Claim C1, counterexample to the claim as stated: a decoder whose final
1x1 density projection has zero weights and bias (`density_layer` constant
zero, a realisable parameter setting) produces, for the `norm` strategy, a
normalised density map that sums to 0, which is not 1 within 1e-4. -/
theorem dm_decoder2_sum_one_fails :
    ((DmDecoder2.forward torchId (dmConstDecoder [0, 0]) [1] [1] [1] [1] "norm").isSome
        = true) ∧
    ¬ (abs ((((DmDecoder2.forward torchId (dmConstDecoder [0, 0])
          [1] [1] [1] [1] "norm").getD []).getD 2 []).sum - 1) ≤ 1/10000) := by
  refine ⟨rfl, ?_⟩
  have h : (((DmDecoder2.forward torchId (dmConstDecoder [0, 0])
      [1] [1] [1] [1] "norm").getD []).getD 2 []) = [0, 0] := by
    simp [DmDecoder2.forward, torchId, dmConstDecoder, reluFM, List.getD]
  rw [h]
  norm_num

/-- Witness for `dm_decoder2_normalisation`: a concrete decoder whose raw
density map is the constant `[1]`, on the `norm` strategy, at the first
normalised output. -/
theorem dm_decoder2_normalisation_witness :
    (∀ v ∈ (((DmDecoder2.forward torchId (dmConstDecoder [1])
        [1] [1] [1] [1] "norm").getD []).getD 2 []), 0 ≤ v) ∧
    ((((DmDecoder2.forward torchId (dmConstDecoder [1])
        [1] [1] [1] [1] "norm").getD []).getD 2 []).sum ≤ 1 ∧
    (1/100 ≤ (((DmDecoder2.forward torchId (dmConstDecoder [1])
        [1] [1] [1] [1] "norm").getD []).getD (2-1) []).sum →
      abs ((((DmDecoder2.forward torchId (dmConstDecoder [1])
        [1] [1] [1] [1] "norm").getD []).getD 2 []).sum - 1) ≤ 1/10000)) :=
  dm_decoder2_normalisation torchId (dmConstDecoder [1])
    [1] [1] [1] [1] "norm" (by decide) 2 (by decide)

lemma zip_flatten_range {α β : Type} (n : ℕ) (f : ℕ → List α) (g : ℕ → List β)
    (h : ∀ i, i < n → (f i).length = (g i).length) :
    (((List.range n).map f).flatten).zip (((List.range n).map g).flatten) =
      ((List.range n).map (fun i => (f i).zip (g i))).flatten := by
  induction n with
  | zero => simp
  | succ m ih =>
    have hlen : (((List.range m).map f).flatten).length =
        (((List.range m).map g).flatten).length := by
      simp only [List.length_flatten, List.map_map]
      refine congrArg List.sum (List.map_congr_left ?_)
      intro i hi
      exact h i (Nat.lt_succ_of_lt (List.mem_range.mp hi))
    rw [List.range_succ]
    simp only [List.map_append, List.map_cons, List.map_nil, List.flatten_append,
      List.flatten_cons, List.flatten_nil, List.append_nil]
    rw [List.zip_append hlen, ih (fun i hi => h i (Nat.lt_succ_of_lt hi))]

lemma zip_map_range {α β γ : Type} (a : List α) (b : List β) (da : α) (db : β)
    (h : a.length = b.length) (f : α → β → γ) :
    (a.zip b).map (fun p => f p.1 p.2) =
      (List.range a.length).map (fun i => f (a.getD i da) (b.getD i db)) := by
  induction a generalizing b with
  | nil => simp
  | cons x xs ih =>
    cases b with
    | nil => simp at h
    | cons y ys =>
      simp only [List.length_cons] at h
      simp only [List.zip_cons_cons, List.map_cons, List.length_cons,
        List.range_succ_eq_map, List.map_map]
      refine congrArg₂ List.cons rfl ?_
      rw [ih ys (by omega)]
      refine List.map_congr_left ?_
      intro i hi
      simp [List.getD_cons_succ, Function.comp]

/-- Claim C3: `SetCriterion.forward` computes the target-count normalizer
exactly once — the batch total target count, summed with the other
workers' contribution and divided by the world size when distributed
training is active, clamped below at 1 — and hands that same value
unchanged to every loss invocation of the final layer and of every
auxiliary layer. -/
theorem set_criterion_num_points_once (c : SetCriterion) (E : ExtFuns) (ctx : DistCtx)
    (outputs : Outputs) (targets : List Target) :
    c.forward E ctx outputs targets =
      c.forwardWith E outputs targets
        (max (if ctx.dist_avail then
                ((((targets.map (fun t => t.labels.length)).sum : ℕ) : ℚ) + ctx.peer_sum)
                  / (ctx.world_size : ℚ)
              else (((targets.map (fun t => t.labels.length)).sum : ℕ) : ℚ)) 1) := by
  unfold SetCriterion.forward SetCriterion.forwardWith
  cases h : ctx.dist_avail <;> simp [h, div_one]

/-- Claim C8: `SetCriterion.get_loss` with a loss name outside the
registered map fails its assert immediately, and each registered name
dispatches to the corresponding loss function. -/
theorem set_criterion_get_loss_dispatch (c : SetCriterion) (E : ExtFuns)
    (o : LayerOutputs) (targets : List Target) (indices : Indices)
    (num_points : ℚ) (log : Bool) :
    (∀ loss : String, loss ∉ ["labels", "cardinality", "points", "masks"] →
      c.get_loss E loss o targets indices num_points log =
        .error ("AssertionError: do you really want to compute " ++ loss ++ " loss?")) ∧
    c.get_loss E "labels" o targets indices num_points log =
      c.loss_labels E o targets indices num_points log ∧
    c.get_loss E "cardinality" o targets indices num_points log =
      .ok (c.loss_cardinality o targets indices num_points) ∧
    c.get_loss E "points" o targets indices num_points log =
      .ok (c.loss_points o targets indices num_points) ∧
    c.get_loss E "masks" o targets indices num_points log =
      c.loss_masks E o targets indices num_points := by
  refine ⟨?_, rfl, rfl, rfl, rfl⟩
  intro loss h
  simp only [List.mem_cons, List.not_mem_nil, or_false, not_or] at h
  obtain ⟨h1, h2, h3, h4⟩ := h
  simp [SetCriterion.get_loss, h1, h2, h3, h4]

/-- Witness for `set_criterion_get_loss_dispatch`: requesting the
unregistered loss name giou on a concrete criterion raises the assert. -/
theorem set_criterion_get_loss_dispatch_witness :
    critEx.get_loss extZero "giou" default [] [] 1 true =
      .error ("AssertionError: do you really want to compute " ++ "giou" ++ " loss?") :=
  (set_criterion_get_loss_dispatch critEx extZero default [] [] 1 true).1 "giou" (by decide)

/-- Claim C5: the point regression loss equals the sum, over all matched
(prediction, target) pairs of every image, of the element-wise L1 distance
between the matched predicted and target point vectors, divided by the
batch-wide normalizer `num_points` (no per-image count appears). -/
theorem set_criterion_loss_point_formula (c : SetCriterion) (o : LayerOutputs)
    (targets : List Target) (indices : Indices) (num_points : ℚ)
    (hlen : ∀ p ∈ indices, p.1.length = p.2.length) :
    c.loss_points o targets indices num_points =
      [("loss_point",
        ((List.range indices.length).map (fun b =>
          (((indices.getD b ([], [])).1.zip (indices.getD b ([], [])).2).map (fun st =>
            ((((o.pred_points.getD b []).getD st.1 []).zip
                ((targets.getD b default).points.getD st.2 [])).map
              (fun pr => |pr.1 - pr.2|)).sum)).sum)).sum / num_points)] := by
  have hlen2 : ∀ i, i < indices.length →
      ((indices.getD i ([], [])).1.map
        (fun s => (o.pred_points.getD i []).getD s [])).length =
      ((indices.getD i ([], [])).2.map
        (fun j => (targets.getD i default).points.getD j [])).length := by
    intro i hi
    simp only [List.length_map]
    have : indices.getD i ([], []) ∈ indices := by
      rw [List.getD_eq_getElem _ _ hi]
      exact List.getElem_mem hi
    exact hlen _ this
  simp only [SetCriterion.loss_points, getSrcPermutationIdx, List.map_flatten,
    List.map_map, Function.comp_def]
  rw [zip_flatten_range _ _ _ hlen2]
  simp only [List.zip_map, List.map_flatten, List.map_map, List.sum_flatten,
    Function.comp_def]
  congr 2

/-- Witness for `set_criterion_loss_point_formula`: one image, one matched
pair, applied at concrete data. -/
theorem set_criterion_loss_point_witness :
    (∀ p ∈ ([([0], [0])] : Indices), p.1.length = p.2.length) ∧
    critEx.loss_points
        { pred_logits := [[[1, 0]]], pred_points := [[[2, 2]]] }
        [{ labels := [0], points := [[1, 1]] }]
        [([0], [0])] 1 =
      [("loss_point",
        List.sum ((List.range ([([0], [0])] : Indices).length).map (fun b =>
          List.sum (((([([0], [0])] : Indices).getD b ([], [])).1.zip
              (([([0], [0])] : Indices).getD b ([], [])).2).map (fun st =>
            List.sum ((((([[[2, 2]]] : Tens3).getD b []).getD st.1 []).zip
                ((([{ labels := [0], points := [[1, 1]] }] : List Target).getD
                    b default).points.getD st.2 [])).map
              (fun pr => |pr.1 - pr.2|)))))) / 1)] :=
  ⟨by decide,
   set_criterion_loss_point_formula critEx
     { pred_logits := [[[1, 0]]], pred_points := [[[2, 2]]] }
     [{ labels := [0], points := [[1, 1]] }]
     [([0], [0])] 1 (by decide)⟩

/-- Claim C6: the `cardinality_error` diagnostic is the batch mean of the
per-image absolute difference between the number of query slots whose
arg-max class is not the (last) no-object class and the image's true
target count (`F.l1_loss` carries its default mean reduction, so for a
one-image batch this is exactly the per-image absolute difference).  The
computation involves no learned quantity differentiably (the source wraps
it in `torch.no_grad`). -/
theorem set_criterion_cardinality_formula (c : SetCriterion) (o : LayerOutputs)
    (targets : List Target) (indices : Indices) (num_points : ℚ)
    (hB : o.pred_logits.length = targets.length) :
    c.loss_cardinality o targets indices num_points =
      [("cardinality_error",
        ((List.range o.pred_logits.length).map (fun b =>
          |((((o.pred_logits.getD b []).countP (fun row =>
                decide (argmaxIdx row ≠ ((o.pred_logits.headD []).headD []).length - 1)))
              : ℕ) : ℚ)
            - (((targets.getD b default).labels.length : ℕ) : ℚ)|)).sum
          / (o.pred_logits.length : ℚ))] := by
  simp only [SetCriterion.loss_cardinality, List.zip_map, List.map_map,
    Function.comp_def, Prod.map]
  rw [zip_map_range o.pred_logits targets ([] : List (List ℚ)) (default : Target) hB
      (fun a t =>
        |(((a.countP (fun row =>
              decide (argmaxIdx row ≠ ((o.pred_logits.headD []).headD []).length - 1))) : ℕ) : ℚ)
          - ((t.labels.length : ℕ) : ℚ)|)]

/-- Witness for `set_criterion_cardinality_formula`, realising the claim's
scenario: five slots whose arg-max yields three non-no-object predictions
against two true targets give cardinality error 1. -/
theorem set_criterion_cardinality_witness :
    (([[[1, 0, 0], [0, 1, 0], [1, 0, 0], [0, 0, 1], [0, 0, 5]]] : Tens3).length =
      ([{ labels := [0, 1], points := [[0, 0], [1, 1]] }] : List Target).length) ∧
    critEx.loss_cardinality
        { pred_logits := [[[1, 0, 0], [0, 1, 0], [1, 0, 0], [0, 0, 1], [0, 0, 5]]],
          pred_points := [[[0, 0], [0, 0], [0, 0], [0, 0], [0, 0]]] }
        [{ labels := [0, 1], points := [[0, 0], [1, 1]] }] [] 1 =
      [("cardinality_error", 1)] := by
  refine ⟨rfl, ?_⟩
  have h := set_criterion_cardinality_formula critEx
      { pred_logits := [[[1, 0, 0], [0, 1, 0], [1, 0, 0], [0, 0, 1], [0, 0, 5]]],
        pred_points := [[[0, 0], [0, 0], [0, 0], [0, 0], [0, 0]]] }
      [{ labels := [0, 1], points := [[0, 0], [1, 1]] }] [] 1 rfl
  rw [h]
  norm_num [List.range_succ, List.countP_cons, List.countP_nil, argmaxIdx,
    List.getD, abs_of_nonneg]

lemma scatter_not_mem (ps : List ((ℕ × ℕ) × ℕ)) (base : ℕ → ℕ → ℕ) (b q : ℕ)
    (h : ∀ e ∈ ps, e.1 ≠ (b, q)) :
    (ps.foldl overrideAt base) b q = base b q := by
  induction ps generalizing base with
  | nil => rfl
  | cons e t ih =>
    rw [List.foldl_cons, ih _ (fun x hx => h x (List.mem_cons_of_mem _ hx))]
    have he := h e (List.mem_cons_self _ _)
    simp only [overrideAt]
    rw [if_neg]
    rintro ⟨h1, h2⟩
    exact he (Prod.ext h1.symm h2.symm)

lemma scatter_find (ps : List ((ℕ × ℕ) × ℕ)) (base : ℕ → ℕ → ℕ) (b q : ℕ)
    (hnd : (ps.map Prod.fst).Nodup) :
    (ps.foldl overrideAt base) b q =
      match ps.find? (fun e => e.1 == (b, q)) with
      | some e => e.2
      | none => base b q := by
  induction ps generalizing base with
  | nil => rfl
  | cons e t ih =>
    rw [List.foldl_cons]
    simp only [List.map_cons, List.nodup_cons] at hnd
    by_cases he : e.1 = (b, q)
    · have hfind : (e :: t).find? (fun x => x.1 == (b, q)) = some e := by
        simp [List.find?_cons, he]
      rw [hfind]
      have hkeys : ∀ x ∈ t, x.1 ≠ (b, q) := by
        intro x hx hc
        apply hnd.1
        rw [he, ← hc]
        exact List.mem_map_of_mem Prod.fst hx
      rw [scatter_not_mem t _ b q hkeys]
      simp only [overrideAt]
      rw [if_pos ⟨by rw [he], by rw [he]⟩]
    · have hfind : (e :: t).find? (fun x => x.1 == (b, q)) =
          t.find? (fun x => x.1 == (b, q)) := by
        simp [List.find?_cons, he]
      rw [hfind, ih _ hnd.2]
      cases hf : t.find? (fun x => x.1 == (b, q)) with
      | some x => rfl
      | none =>
        simp only [overrideAt]
        rw [if_neg]
        rintro ⟨h1, h2⟩
        exact he (Prod.ext h1.symm h2.symm)

lemma find?_flatten_tagged {γ : Type} (n : ℕ) (blocks : ℕ → List ((ℕ × ℕ) × γ)) (b q : ℕ)
    (htag : ∀ i, i < n → ∀ e ∈ blocks i, e.1.1 = i) :
    (((List.range n).map blocks).flatten).find? (fun e => e.1 == (b, q)) =
      if b < n then (blocks b).find? (fun e => e.1 == (b, q)) else none := by
  induction n with
  | zero => simp
  | succ m ih =>
    rw [List.range_succ]
    simp only [List.map_append, List.map_cons, List.map_nil, List.flatten_append,
      List.flatten_cons, List.flatten_nil, List.append_nil, List.find?_append]
    rw [ih (fun i hi => htag i (Nat.lt_succ_of_lt hi))]
    by_cases hb : b < m
    · rw [if_pos hb, if_pos (Nat.lt_succ_of_lt hb)]
      cases hf : (blocks b).find? (fun e => e.1 == (b, q)) with
      | some e => simp
      | none =>
        simp only [Option.none_or]
        rw [List.find?_eq_none]
        intro x hx
        have hx1 := htag m (Nat.lt_succ_self m) x hx
        simp only [beq_iff_eq]
        intro hc
        rw [hc] at hx1
        simp only [Prod.fst] at hx1
        omega
    · rw [if_neg hb, Option.none_or]
      by_cases hbm : b = m
      · subst hbm
        rw [if_pos (Nat.lt_succ_self b)]
      · rw [if_neg (by omega)]
        rw [List.find?_eq_none]
        intro x hx
        have hx1 := htag m (Nat.lt_succ_self m) x hx
        simp only [beq_iff_eq]
        intro hc
        rw [hc] at hx1
        simp only [Prod.fst] at hx1
        omega

lemma target_classes_characterisation (targets : List Target) (indices : Indices)
    (nc : ℕ) (b q : ℕ)
    (hlen : ∀ p ∈ indices, p.1.length = p.2.length)
    (hndp : ∀ p ∈ indices, p.1.Nodup) :
    (((getSrcPermutationIdx indices).zip
        (((List.range indices.length).map
          (fun i => (indices.getD i ([], [])).2.map
            (fun j => (targets.getD i default).labels.getD j 0))).flatten)).foldl
      overrideAt (fun _ _ => nc)) b q
    = (matchedClass targets indices b q).getD nc := by
  have hmem : ∀ i, i < indices.length → indices.getD i ([], []) ∈ indices := by
    intro i hi
    rw [List.getD_eq_getElem _ _ hi]
    exact List.getElem_mem hi
  have hblocks : (getSrcPermutationIdx indices).zip
      (((List.range indices.length).map (fun i => (indices.getD i ([], [])).2.map
          (fun j => (targets.getD i default).labels.getD j 0))).flatten) =
      ((List.range indices.length).map (fun i =>
        ((indices.getD i ([], [])).1.zip (indices.getD i ([], [])).2).map
          (fun st => ((i, st.1), (targets.getD i default).labels.getD st.2 0)))).flatten := by
    rw [getSrcPermutationIdx]
    rw [zip_flatten_range indices.length _ _ (fun i hi => by
      simp only [List.length_map]
      exact hlen _ (hmem i hi))]
    refine congrArg List.flatten (List.map_congr_left ?_)
    intro i hi
    rw [List.zip_map]
    refine List.map_congr_left ?_
    intro st hst
    rfl
  rw [hblocks]
  rw [scatter_find]
  · rw [find?_flatten_tagged indices.length _ b q (fun i hi e he => by
      rcases List.mem_map.mp he with ⟨st, hst, rfl⟩
      rfl)]
    by_cases hb : b < indices.length
    · rw [if_pos hb, List.find?_map]
      have hpred : ((fun e : (ℕ × ℕ) × ℕ => e.1 == (b, q)) ∘
          (fun st : ℕ × ℕ => ((b, st.1), (targets.getD b default).labels.getD st.2 0))) =
          (fun st : ℕ × ℕ => st.1 == q) := by
        funext st
        by_cases h : st.1 = q <;> simp [h, Function.comp]
      rw [hpred, matchedClass]
      cases hf : ((indices.getD b ([], [])).1.zip (indices.getD b ([], [])).2).find?
          (fun st => st.1 == q) with
      | some st => simp [hf]
      | none => simp [hf]
    · rw [if_neg hb, matchedClass]
      have : indices.getD b ([], []) = ([], []) :=
        List.getD_eq_default _ _ (by omega)
      rw [this]
      simp
  · -- the scattered keys are distinct
    rw [List.map_flatten, List.map_map]
    simp only [Function.comp_def, List.map_map]
    rw [List.nodup_flatten]
    constructor
    · intro l hl
      rcases List.mem_map.mp hl with ⟨i, hi, rfl⟩
      have hrw : ((indices.getD i ([], [])).1.zip (indices.getD i ([], [])).2).map
          (fun x : ℕ × ℕ => (i, x.1)) =
          (((indices.getD i ([], [])).1.zip (indices.getD i ([], [])).2).map Prod.fst).map
            (fun s => (i, s)) := by
        rw [List.map_map]
        rfl
      rw [hrw]
      refine List.Nodup.map (fun a a2 h => ?_) ?_
      · exact (Prod.mk.injEq i a i a2).mp h |>.2
      · rw [List.map_fst_zip]
        · exact hndp _ (hmem i (List.mem_range.mp hi))
        · rw [hlen _ (hmem i (List.mem_range.mp hi))]
    · have hp := List.pairwise_lt_range indices.length
      rw [List.pairwise_map]
      refine hp.imp ?_
      intro i j hij
      intro a hai haj
      rcases List.mem_map.mp hai with ⟨st, hst, rfl⟩
      rcases List.mem_map.mp haj with ⟨st2, hst2, he⟩
      have hji : j = i := by
        have := congrArg (fun x : ℕ × ℕ => x.1) he
        simpa using this
      omega

lemma onehot_materialise (tc : ℕ → ℕ → ℕ) (mc : ℕ → ℕ → Option ℕ) (B Q C : ℕ)
    (h : ∀ b q, b < B → q < Q → tc b q = (mc b q).getD C) :
    (List.range B).map (fun b => (List.range Q).map (fun q =>
      ((List.range (C+1)).map (fun k => if tc b q = k then (1:ℚ) else 0)).dropLast)) =
    (List.range B).map (fun b => (List.range Q).map (fun q =>
      (List.range C).map (fun k => if mc b q = some k then (1:ℚ) else 0))) := by
  refine List.map_congr_left ?_
  intro b hb
  refine List.map_congr_left ?_
  intro q hq
  rw [List.range_succ, List.map_append, List.map_cons, List.map_nil,
    List.dropLast_concat]
  refine List.map_congr_left ?_
  intro k hk
  rw [h b q (List.mem_range.mp hb) (List.mem_range.mp hq)]
  cases hmc : mc b q with
  | none =>
    simp only [Option.getD_none]
    rw [if_neg (by have := List.mem_range.mp hk; omega)]
    rw [if_neg (by simp)]
  | some v =>
    simp only [Option.getD_some]
    by_cases hv : v = k
    · rw [if_pos hv, if_pos (by rw [hv])]
    · rw [if_neg hv, if_neg (by simp [hv])]

/-- Claim C4: the classification loss `loss_ce` equals the binary sigmoid
focal-loss primitive (alpha = `focal_alpha`, gamma = 2) of the B x Q x C
logits against the one-hot target in which matched slots carry their
target's true class and unmatched slots are all-zero rows (the no-object
class excluded from the support), normalized by the batch-wide `num_points`
and additionally multiplied by Q, the number of query slots. -/
theorem set_criterion_loss_ce_formula (c : SetCriterion) (E : ExtFuns)
    (o : LayerOutputs) (targets : List Target) (indices : Indices)
    (num_points : ℚ) (log : Bool)
    (hw : c.with_weights = false)
    (hnc : ((o.pred_logits.headD []).headD []).length = c.num_classes)
    (hlen : ∀ p ∈ indices, p.1.length = p.2.length)
    (hndp : ∀ p ∈ indices, p.1.Nodup) :
    ∃ l, c.loss_labels E o targets indices num_points log = .ok l ∧
      l.lookup "loss_ce" = some
        (sigmoid_focal_loss E o.pred_logits
          (specOnehot targets indices o.pred_logits.length
            (o.pred_logits.headD []).length ((o.pred_logits.headD []).headD []).length)
          num_points c.focal_alpha 2 * (((o.pred_logits.headD []).length : ℕ) : ℚ)) := by
  simp only [SetCriterion.loss_labels, hw, Bool.false_eq_true, if_false, reduceIte]
  refine ⟨_, rfl, ?_⟩
  have hrw : (List.range o.pred_logits.length).map (fun b =>
      (List.range (o.pred_logits.headD []).length).map (fun q =>
        ((List.range (((o.pred_logits.headD []).headD []).length + 1)).map (fun k =>
          if (((getSrcPermutationIdx indices).zip
              (((List.range indices.length).map
                (fun i => (indices.getD i ([], [])).2.map
                  (fun j => (targets.getD i default).labels.getD j 0))).flatten)).foldl
            overrideAt (fun _ _ => c.num_classes)) b q = k then (1:ℚ) else 0)).dropLast)) =
      specOnehot targets indices o.pred_logits.length
        (o.pred_logits.headD []).length ((o.pred_logits.headD []).headD []).length := by
    rw [specOnehot]
    refine onehot_materialise _ _ _ _ _ ?_
    intro b q hb hq
    rw [target_classes_characterisation targets indices c.num_classes b q hlen hndp]
    rw [hnc]
  rw [List.singleton_append, List.lookup_cons_self]
  rw [hrw]

/-- Witness for `set_criterion_loss_ce_formula`: one image, two query
slots, two classes, target of class 1 matched to slot 0, normalizer 3. -/
theorem set_criterion_loss_ce_witness :
    (critEx.with_weights = false) ∧
    (((([[[1, 0], [0, 1]]] : Tens3).headD []).headD []).length = critEx.num_classes) ∧
    (∀ p ∈ ([([0], [0])] : Indices), p.1.length = p.2.length) ∧
    (∀ p ∈ ([([0], [0])] : Indices), p.1.Nodup) ∧
    (∃ l, critEx.loss_labels extZero
        { pred_logits := [[[1, 0], [0, 1]]], pred_points := [[[0, 0], [0, 0]]] }
        [{ labels := [1], points := [[0, 0]] }] [([0], [0])] 3 true = .ok l ∧
      l.lookup "loss_ce" = some
        (sigmoid_focal_loss extZero [[[1, 0], [0, 1]]]
          (specOnehot [{ labels := [1], points := [[0, 0]] }] [([0], [0])]
            ([[[1, 0], [0, 1]]] : Tens3).length
            (([[[1, 0], [0, 1]]] : Tens3).headD []).length
            ((([[[1, 0], [0, 1]]] : Tens3).headD []).headD []).length)
          3 critEx.focal_alpha 2
          * (((([[[1, 0], [0, 1]]] : Tens3).headD []).length : ℕ) : ℚ))) :=
  ⟨rfl, rfl, by decide, by decide,
   set_criterion_loss_ce_formula critEx extZero
     { pred_logits := [[[1, 0], [0, 1]]], pred_points := [[[0, 0], [0, 0]]] }
     [{ labels := [1], points := [[0, 0]] }] [([0], [0])] 3 true rfl rfl
     (by decide) (by decide)⟩

lemma getD_range_map {α : Type} (n b : ℕ) (f : ℕ → α) (d : α) (hb : b < n) :
    ((List.range n).map f).getD b d = f b := by
  rw [List.getD_eq_getElem _ _ (by simpa using hb)]
  simp

lemma sum_map_const_nat {α : Type} (l : List α) (c : ℕ) :
    (l.map (fun _ => c)).sum = l.length * c := by
  induction l with
  | nil => simp
  | cons a t ih => simp [ih, Nat.succ_mul, Nat.add_comm]

lemma flatten_length_rect {α : Type} (img : List (List α)) (C : ℕ)
    (h : ∀ r ∈ img, r.length = C) : img.flatten.length = img.length * C := by
  rw [List.length_flatten]
  rw [List.map_congr_left (fun r hr => h r hr)]
  exact sum_map_const_nat img C

lemma flatten_getD_rect (img : List (List ℚ)) (C i : ℕ)
    (hC : 0 < C) (h : ∀ r ∈ img, r.length = C) (hi : i < img.length * C) :
    img.flatten.getD i 0 = (img.getD (i / C) []).getD (i % C) 0 := by
  induction img generalizing i with
  | nil => simp at hi
  | cons r rs ih =>
    have hr : r.length = C := h r (List.mem_cons_self _ _)
    by_cases hiC : i < C
    · rw [List.flatten_cons, List.getD_append _ _ _ _ (by omega)]
      rw [Nat.div_eq_of_lt hiC, Nat.mod_eq_of_lt hiC]
      rfl
    · rw [List.flatten_cons, List.getD_append_right _ _ _ _ (by omega), hr]
      rw [Nat.div_eq_sub_div hC (by omega), Nat.mod_eq_sub_mod (by omega)]
      rw [List.getD_cons_succ]
      rw [List.length_cons, Nat.add_mul, one_mul] at hi
      exact ih (i - C) (fun r2 hr2 => h r2 (List.mem_cons_of_mem _ hr2)) (by omega)

lemma topkDesc_length (v : List ℚ) (k : ℕ) (h : k ≤ v.length) :
    (topkDesc v k).length = k := by
  rw [topkDesc, List.length_take, List.length_insertionSort]
  simp [h]

lemma topkDesc_sorted (v : List ℚ) (k : ℕ) :
    (topkDesc v k).Pairwise scoreGe := by
  rw [topkDesc]
  exact ((List.sorted_insertionSort scoreGe _).sublist (List.take_sublist _ _))

lemma topkDesc_mem (v : List ℚ) (k : ℕ) (p : ℚ × ℕ) (hp : p ∈ topkDesc v k) :
    p.2 < v.length ∧ p.1 = v.getD p.2 0 := by
  rw [topkDesc] at hp
  have hp2 := (List.take_sublist _ _).subset hp
  rw [List.mem_insertionSort] at hp2
  rcases List.mem_map.mp hp2 with ⟨i, hi, rfl⟩
  exact ⟨by simpa using List.mem_range.mp hi, rfl⟩

lemma getD_map_of_default {α β : Type} (f : α → β) (l : List α) (n : ℕ)
    (da : α) (db : β) (hd : f da = db) : (l.map f).getD n db = f (l.getD n da) := by
  by_cases h : n < l.length
  · rw [List.getD_eq_getElem _ _ (by simpa using h), List.getD_eq_getElem _ _ h]
    simp
  · rw [List.getD_eq_default _ _ (by simpa using Nat.not_lt.mp h),
      List.getD_eq_default _ _ (Nat.not_lt.mp h), hd]

/-- Claim C7: under well-shaped inputs with at least 100 query-class
entries, `PostProcess.forward` succeeds and, for every image, applies
sigmoid to the logits, flattens the query-class space, selects the top 100
entries by score, recovers the class label as the flattened index modulo C
and the query as the index divided by C, converts the gathered points from
center form to corner form, and scales them by (width, height, width,
height) from the per-image target size; every per-image result holds 100
entries. -/
theorem post_process_pipeline (E : ExtFuns) (o : LayerOutputs)
    (target_sizes : List (List ℚ)) (B Q C : ℕ)
    (hB : o.pred_logits.length = B)
    (hts : target_sizes.length = B)
    (hts2 : ∀ r ∈ target_sizes, r.length = 2)
    (hrect : ∀ img ∈ o.pred_logits, img.length = Q ∧ ∀ row ∈ img, row.length = C)
    (hK : 100 ≤ Q * C) :
    ∃ res, PostProcess.forward E o target_sizes = .ok res ∧ res.length = B ∧
      ∀ b, b < B → res.getD b default =
        { scores := (topkDesc (((o.pred_logits.getD b []).map
              (fun row => row.map E.sigmoid)).flatten) 100).map (fun p => p.1),
          labels := (topkDesc (((o.pred_logits.getD b []).map
              (fun row => row.map E.sigmoid)).flatten) 100).map (fun p =>
                p.2 % ((o.pred_logits.headD []).headD []).length),
          points := (topkDesc (((o.pred_logits.getD b []).map
              (fun row => row.map E.sigmoid)).flatten) 100).map (fun p =>
                List.zipWith (fun a s => a * s)
                  (box_cxcywh_to_xyxy ((o.pred_points.getD b []).getD
                    (p.2 / ((o.pred_logits.headD []).headD []).length) []))
                  [(target_sizes.getD b []).getD 1 0, (target_sizes.getD b []).getD 0 0,
                   (target_sizes.getD b []).getD 1 0, (target_sizes.getD b []).getD 0 0]) }
        ∧ (res.getD b default).scores.length = 100 := by
  have hflatlen : ∀ img ∈ o.pred_logits,
      ((img.map (fun row => row.map E.sigmoid)).flatten).length = Q * C := by
    intro img hi
    rw [flatten_length_rect _ C (fun r hr => by
      rcases List.mem_map.mp hr with ⟨row, hrow, rfl⟩
      simp [(hrect img hi).2 row hrow])]
    rw [List.length_map, (hrect img hi).1]
  have hguard1 : ¬ (o.pred_logits.length ≠ target_sizes.length) := by
    rw [hB, hts]
    simp
  have hguard2 : (target_sizes.all (fun r => r.length == 2)) = true := by
    rw [List.all_eq_true]
    intro r hr
    simpa using hts2 r hr
  have hguard3 : (((o.pred_logits.map (fun img => img.map (fun row =>
      row.map E.sigmoid))).map List.flatten).all (fun v => decide (100 ≤ v.length)))
      = true := by
    rw [List.all_eq_true]
    intro v hv
    rcases List.mem_map.mp hv with ⟨w, hw, rfl⟩
    rcases List.mem_map.mp hw with ⟨img, himg, rfl⟩
    simpa using le_trans hK (le_of_eq (hflatlen img himg).symm)
  simp only [PostProcess.forward]
  rw [if_neg hguard1, if_neg (not_not_intro hguard2), if_neg (not_not_intro hguard3)]
  refine ⟨_, rfl, by simpa using hB, ?_⟩
  intro b hb
  rw [getD_range_map _ _ _ _ (by rw [hB]; exact hb)]
  have hflatD : ((o.pred_logits.map (fun img => img.map (fun row =>
      row.map E.sigmoid))).map List.flatten).getD b [] =
      ((o.pred_logits.getD b []).map (fun row => row.map E.sigmoid)).flatten := by
    rw [List.map_map]
    exact getD_map_of_default _ _ _ [] [] rfl
  have hptsD : (o.pred_points.map (fun img => img.map box_cxcywh_to_xyxy)).getD b [] =
      (o.pred_points.getD b []).map box_cxcywh_to_xyxy :=
    getD_map_of_default _ _ _ [] [] rfl
  have hptsD2 : ∀ i, ((o.pred_points.getD b []).map box_cxcywh_to_xyxy).getD i [] =
      box_cxcywh_to_xyxy ((o.pred_points.getD b []).getD i []) :=
    fun i => getD_map_of_default _ _ i [] [] rfl
  constructor
  · simp only [hflatD, hptsD, hptsD2]
  · simp only [hflatD, List.length_map]
    rw [topkDesc_length]
    rw [hflatlen _ (by
      rw [List.getD_eq_getElem _ _ (by rw [hB]; exact hb)]
      exact List.getElem_mem _)]
    exact hK

/-- Witness for `post_process_pipeline`: one image, one query slot, 100
classes, all hypotheses discharged on concrete data. -/
theorem post_process_pipeline_witness :
    (ppLogitsEx.length = 1) ∧ (ppSizesEx.length = 1) ∧
    (∀ r ∈ ppSizesEx, r.length = 2) ∧
    (∀ img ∈ ppLogitsEx, img.length = 1 ∧ ∀ row ∈ img, row.length = 100) ∧
    (100 ≤ 1 * 100) ∧
    (∃ res, PostProcess.forward extZero
        { pred_logits := ppLogitsEx, pred_points := ppPointsEx } ppSizesEx = .ok res ∧
      res.length = 1 ∧
      ∀ b, b < 1 → res.getD b default =
        { scores := (topkDesc (((ppLogitsEx.getD b []).map
              (fun row => row.map extZero.sigmoid)).flatten) 100).map (fun p => p.1),
          labels := (topkDesc (((ppLogitsEx.getD b []).map
              (fun row => row.map extZero.sigmoid)).flatten) 100).map (fun p =>
                p.2 % ((ppLogitsEx.headD []).headD []).length),
          points := (topkDesc (((ppLogitsEx.getD b []).map
              (fun row => row.map extZero.sigmoid)).flatten) 100).map (fun p =>
                List.zipWith (fun a s => a * s)
                  (box_cxcywh_to_xyxy ((ppPointsEx.getD b []).getD
                    (p.2 / ((ppLogitsEx.headD []).headD []).length) []))
                  [(ppSizesEx.getD b []).getD 1 0, (ppSizesEx.getD b []).getD 0 0,
                   (ppSizesEx.getD b []).getD 1 0, (ppSizesEx.getD b []).getD 0 0]) }
        ∧ (res.getD b default).scores.length = 100) :=
  ⟨rfl, rfl, by decide, by decide, by decide,
   post_process_pipeline extZero
     { pred_logits := ppLogitsEx, pred_points := ppPointsEx } ppSizesEx 1 1 100
     rfl rfl (by decide) (by decide) (by decide)⟩

lemma headD_eq_getD {γ : Type} (l : List γ) (d : γ) : l.headD d = l.getD 0 d := by
  cases l <;> rfl

/-- Claim C10: whenever `PostProcess.forward` succeeds on well-shaped
inputs, each per-image `scores` sequence is sorted in non-increasing
order, and the j-th entries of `scores`, `labels` and `points` all refer
to the same selected (query, class) pair: the score is the sigmoid of that
query's logit at that class, the label is that class, and the point is the
scaled corner-form conversion of that query's predicted point. -/
theorem post_process_sorted_aligned (E : ExtFuns) (o : LayerOutputs)
    (target_sizes : List (List ℚ)) (B Q C : ℕ)
    (hB : o.pred_logits.length = B)
    (hts : target_sizes.length = B)
    (hts2 : ∀ r ∈ target_sizes, r.length = 2)
    (hrect : ∀ img ∈ o.pred_logits, img.length = Q ∧ ∀ row ∈ img, row.length = C)
    (hK : 100 ≤ Q * C) :
    ∃ res, PostProcess.forward E o target_sizes = .ok res ∧
      ∀ b, b < B →
        ((res.getD b default).scores.Pairwise (· ≥ ·)) ∧
        (∀ j, j < 100 → ∃ q cI, q < Q ∧ cI < C ∧
          (res.getD b default).scores.getD j 0 =
            E.sigmoid (((o.pred_logits.getD b []).getD q []).getD cI 0) ∧
          (res.getD b default).labels.getD j 0 = cI ∧
          (res.getD b default).points.getD j [] =
            List.zipWith (fun a s => a * s)
              (box_cxcywh_to_xyxy ((o.pred_points.getD b []).getD q []))
              [(target_sizes.getD b []).getD 1 0, (target_sizes.getD b []).getD 0 0,
               (target_sizes.getD b []).getD 1 0, (target_sizes.getD b []).getD 0 0]) := by
  have hC : 0 < C := by
    rcases Nat.eq_zero_or_pos C with h | h
    · rw [h, Nat.mul_zero] at hK
      omega
    · exact h
  have hQ : 0 < Q := by
    rcases Nat.eq_zero_or_pos Q with h | h
    · rw [h, Nat.zero_mul] at hK
      omega
    · exact h
  have hflatlen : ∀ img ∈ o.pred_logits,
      ((img.map (fun row => row.map E.sigmoid)).flatten).length = Q * C := by
    intro img hi
    rw [flatten_length_rect _ C (fun r hr => by
      rcases List.mem_map.mp hr with ⟨row, hrow, rfl⟩
      simp [(hrect img hi).2 row hrow])]
    rw [List.length_map, (hrect img hi).1]
  have hguard1 : ¬ (o.pred_logits.length ≠ target_sizes.length) := by
    rw [hB, hts]
    simp
  have hguard2 : (target_sizes.all (fun r => r.length == 2)) = true := by
    rw [List.all_eq_true]
    intro r hr
    simpa using hts2 r hr
  have hguard3 : (((o.pred_logits.map (fun img => img.map (fun row =>
      row.map E.sigmoid))).map List.flatten).all (fun v => decide (100 ≤ v.length)))
      = true := by
    rw [List.all_eq_true]
    intro v hv
    rcases List.mem_map.mp hv with ⟨w, hw, rfl⟩
    rcases List.mem_map.mp hw with ⟨img, himg, rfl⟩
    simpa using le_trans hK (le_of_eq (hflatlen img himg).symm)
  simp only [PostProcess.forward]
  rw [if_neg hguard1, if_neg (not_not_intro hguard2), if_neg (not_not_intro hguard3)]
  refine ⟨_, rfl, ?_⟩
  intro b hb
  rw [getD_range_map _ _ _ _ (by rw [hB]; exact hb)]
  have himgb : o.pred_logits.getD b [] ∈ o.pred_logits := by
    rw [List.getD_eq_getElem _ _ (by rw [hB]; exact hb)]
    exact List.getElem_mem _
  have hflatD : ((o.pred_logits.map (fun img => img.map (fun row =>
      row.map E.sigmoid))).map List.flatten).getD b [] =
      ((o.pred_logits.getD b []).map (fun row => row.map E.sigmoid)).flatten := by
    rw [List.map_map]
    exact getD_map_of_default _ _ _ [] [] rfl
  have hflatb : (((o.pred_logits.getD b []).map
      (fun row => row.map E.sigmoid)).flatten).length = Q * C :=
    hflatlen _ himgb
  have hpairs_len : (topkDesc (((o.pred_logits.getD b []).map
      (fun row => row.map E.sigmoid)).flatten) 100).length = 100 :=
    topkDesc_length _ _ (by rw [hflatb]; exact hK)
  have hCs : ((o.pred_logits.headD []).headD []).length = C := by
    rw [headD_eq_getD, headD_eq_getD]
    have h0 : o.pred_logits.getD 0 [] ∈ o.pred_logits := by
      rw [List.getD_eq_getElem _ _ (by rw [hB]; omega)]
      exact List.getElem_mem _
    have hrow : (o.pred_logits.getD 0 []).getD 0 [] ∈ o.pred_logits.getD 0 [] := by
      rw [List.getD_eq_getElem (o.pred_logits.getD 0 []) []
        (by rw [(hrect _ h0).1]; exact hQ)]
      exact List.getElem_mem _
    exact (hrect _ h0).2 _ hrow
  simp only [hflatD]
  constructor
  · rw [List.pairwise_map]
    exact (topkDesc_sorted _ _).imp (fun h => h)
  · intro j hj
    have hj2 : j < (topkDesc (((o.pred_logits.getD b []).map
        (fun row => row.map E.sigmoid)).flatten) 100).length := by
      rw [hpairs_len]
      exact hj
    have hmemp : (topkDesc (((o.pred_logits.getD b []).map
        (fun row => row.map E.sigmoid)).flatten) 100).getD j (0, 0) ∈
        topkDesc (((o.pred_logits.getD b []).map
          (fun row => row.map E.sigmoid)).flatten) 100 := by
      rw [List.getD_eq_getElem _ _ hj2]
      exact List.getElem_mem _
    obtain ⟨hidx, hval⟩ := topkDesc_mem _ _ _ hmemp
    rw [hflatb] at hidx
    refine ⟨((topkDesc (((o.pred_logits.getD b []).map
        (fun row => row.map E.sigmoid)).flatten) 100).getD j (0, 0)).2 / C,
      ((topkDesc (((o.pred_logits.getD b []).map
        (fun row => row.map E.sigmoid)).flatten) 100).getD j (0, 0)).2 % C,
      ?_, Nat.mod_lt _ hC, ?_, ?_, ?_⟩
    · exact (Nat.div_lt_iff_lt_mul hC).mpr hidx
    · -- the score is the sigmoid of that logit
      rw [List.getD_eq_getElem _ _ (by simpa using hj2), List.getElem_map,
        ← List.getD_eq_getElem _ (0, 0) hj2, hval]
      rw [flatten_getD_rect _ C _ hC (fun r hr => by
        rcases List.mem_map.mp hr with ⟨row, hrow, rfl⟩
        simp [(hrect _ himgb).2 row hrow]) (by
        rw [List.length_map, (hrect _ himgb).1]
        exact hidx)]
      rw [getD_map_of_default _ _ _ [] [] rfl]
      have hqlt : ((topkDesc (((o.pred_logits.getD b []).map
          (fun row => row.map E.sigmoid)).flatten) 100).getD j (0, 0)).2 / C <
          (o.pred_logits.getD b []).length := by
        rw [(hrect _ himgb).1]
        exact (Nat.div_lt_iff_lt_mul hC).mpr hidx
      have hrowmem : (o.pred_logits.getD b []).getD (((topkDesc
          (((o.pred_logits.getD b []).map (fun row => row.map E.sigmoid)).flatten)
            100).getD j (0, 0)).2 / C) [] ∈ o.pred_logits.getD b [] := by
        rw [List.getD_eq_getElem _ _ hqlt]
        exact List.getElem_mem _
      have hrowlen := (hrect _ himgb).2 _ hrowmem
      rw [List.getD_eq_getElem _ _ (by
          rw [List.length_map, hrowlen]
          exact Nat.mod_lt _ hC),
        List.getElem_map, ← List.getD_eq_getElem _ 0 (by
          rw [hrowlen]
          exact Nat.mod_lt _ hC)]
    · -- the label is the class of the same pair
      rw [List.getD_eq_getElem _ _ (by simpa using hj2), List.getElem_map,
        ← List.getD_eq_getElem _ (0, 0) hj2, hCs]
    · -- the point is the scaled corner form of the same query's prediction
      rw [List.getD_eq_getElem _ _ (by simpa using hj2), List.getElem_map,
        ← List.getD_eq_getElem _ (0, 0) hj2, hCs]
      have hptsD : (o.pred_points.map (fun img => img.map box_cxcywh_to_xyxy)).getD b [] =
          (o.pred_points.getD b []).map box_cxcywh_to_xyxy :=
        getD_map_of_default _ _ _ [] [] rfl
      rw [hptsD, getD_map_of_default _ _ _ [] [] rfl]

/-- Witness for `post_process_sorted_aligned` at the same concrete
one-image, one-slot, 100-class input. -/
theorem post_process_sorted_aligned_witness :
    (ppLogitsEx.length = 1) ∧ (ppSizesEx.length = 1) ∧
    (∀ r ∈ ppSizesEx, r.length = 2) ∧
    (∀ img ∈ ppLogitsEx, img.length = 1 ∧ ∀ row ∈ img, row.length = 100) ∧
    (100 ≤ 1 * 100) ∧
    (∃ res, PostProcess.forward extZero
        { pred_logits := ppLogitsEx, pred_points := ppPointsEx } ppSizesEx = .ok res ∧
      ∀ b, b < 1 →
        ((res.getD b default).scores.Pairwise (· ≥ ·)) ∧
        (∀ j, j < 100 → ∃ q cI, q < 1 ∧ cI < 100 ∧
          (res.getD b default).scores.getD j 0 =
            extZero.sigmoid (((ppLogitsEx.getD b []).getD q []).getD cI 0) ∧
          (res.getD b default).labels.getD j 0 = cI ∧
          (res.getD b default).points.getD j [] =
            List.zipWith (fun a s => a * s)
              (box_cxcywh_to_xyxy ((ppPointsEx.getD b []).getD q []))
              [(ppSizesEx.getD b []).getD 1 0, (ppSizesEx.getD b []).getD 0 0,
               (ppSizesEx.getD b []).getD 1 0, (ppSizesEx.getD b []).getD 0 0])) :=
  ⟨rfl, rfl, by decide, by decide, by decide,
   post_process_sorted_aligned extZero
     { pred_logits := ppLogitsEx, pred_points := ppPointsEx } ppSizesEx 1 1 100
     rfl rfl (by decide) (by decide) (by decide)⟩

/-- Claim C9: with only Q = 5 query slots and C = 2 classes (10 flattened
entries, fewer than the hard-coded top-100), `PostProcess.forward` does
not return results: the `torch.topk(..., 100)` call raises, exactly as
torch does when k exceeds the dimension size. -/
theorem post_process_small_q_raises :
    PostProcess.forward extZero
      { pred_logits := [[[1, 0], [0, 1], [1, 1], [0, 0], [2, 0]]],
        pred_points := [[[0, 0, 0, 0], [0, 0, 0, 0], [0, 0, 0, 0],
                         [0, 0, 0, 0], [0, 0, 0, 0]]] }
      [[32, 32]] = .error "RuntimeError: selected index k out of range" := rfl

lemma toDigitsCore_eq (fuel n : ℕ) (acc : List Char) (h : n < fuel) :
    Nat.toDigitsCore 10 fuel n acc = digitsRec n ++ acc := by
  induction fuel generalizing n acc with
  | zero => omega
  | succ f ih =>
    rw [Nat.toDigitsCore]
    by_cases h0 : n / 10 = 0
    · have hn : n < 10 := by omega
      rw [if_pos h0, digitsRec, if_pos hn, Nat.mod_eq_of_lt hn]
      rfl
    · have hn : ¬ n < 10 := by
        intro hc
        rw [Nat.div_eq_of_lt hc] at h0
        exact h0 rfl
      rw [if_neg h0, ih (n / 10) _ (by
        have := Nat.div_lt_self (by omega : 0 < n) (by omega : 1 < 10)
        omega)]
      conv_rhs => rw [digitsRec]
      rw [if_neg hn]
      simp

lemma repr_eq_digitsRec (n : ℕ) : (Nat.repr n).data = digitsRec n := by
  show (Nat.toDigits 10 n).asString.data = digitsRec n
  rw [Nat.toDigits, toDigitsCore_eq (n + 1) n [] (Nat.lt_succ_self n)]
  simp [List.asString]

lemma digitVal_digitChar (m : ℕ) (h : m < 10) : digitVal (Nat.digitChar m) = m := by
  interval_cases m <;> rfl

lemma ofDigits_digitsRec (n : ℕ) : ofDigits (digitsRec n) = n := by
  induction n using Nat.strong_induction_on with
  | _ n ih =>
    rw [digitsRec]
    by_cases hn : n < 10
    · rw [if_pos hn]
      show 10 * 0 + digitVal (Nat.digitChar n) = n
      rw [digitVal_digitChar n hn]
      omega
    · rw [if_neg hn, ofDigits, List.foldl_append]
      have h1 : (digitsRec (n / 10)).foldl (fun a c => 10 * a + digitVal c) 0 = n / 10 :=
        ih (n / 10) (Nat.div_lt_self (by omega) (by omega))
      rw [h1]
      show 10 * (n / 10) + digitVal (Nat.digitChar (n % 10)) = n
      rw [digitVal_digitChar _ (Nat.mod_lt _ (by omega))]
      omega

lemma nat_repr_inj (a b : ℕ) (h : Nat.repr a = Nat.repr b) : a = b := by
  have hd : digitsRec a = digitsRec b := by
    rw [← repr_eq_digitsRec, ← repr_eq_digitsRec, h]
  rw [← ofDigits_digitsRec a, ← ofDigits_digitsRec b, hd]

lemma digitsRec_ne_nil (n : ℕ) : digitsRec n ≠ [] := by
  rw [digitsRec]
  by_cases hn : n < 10
  · rw [if_pos hn]
    simp
  · rw [if_neg hn]
    simp

lemma digitsRec_digits (n : ℕ) : ∀ c ∈ digitsRec n, c.isDigit = true := by
  induction n using Nat.strong_induction_on with
  | _ n ih =>
    rw [digitsRec]
    have hdig : ∀ m : ℕ, m < 10 → (Nat.digitChar m).isDigit = true := by decide
    by_cases hn : n < 10
    · rw [if_pos hn]
      intro c hc
      rw [List.mem_singleton] at hc
      rw [hc]
      exact hdig n hn
    · rw [if_neg hn]
      intro c hc
      rcases List.mem_append.mp hc with h1 | h1
      · exact ih (n / 10) (Nat.div_lt_self (by omega) (by omega)) c h1
      · rw [List.mem_singleton] at h1
        rw [h1]
        exact hdig _ (Nat.mod_lt _ (by omega))

lemma append_digit_run_aux (a1 a2 r1 r2 : List Char)
    (h2 : ∀ c ∈ r2, c.isDigit = true)
    (c1 : Char) (ha1 : a1.getLast? = some c1) (hc1 : c1.isDigit = false)
    (hle : r1.length ≤ r2.length) (heq : a1 ++ r1 = a2 ++ r2) :
    a1 = a2 ∧ r1 = r2 := by
  have hlen : a1.length + r1.length = a2.length + r2.length := by
    have := congrArg List.length heq
    simpa using this
  have hd : a2.length ≤ a1.length := by omega
  have ha1eq : a1 = a2 ++ r2.take (a1.length - a2.length) := by
    have h1 : a1 = (a1 ++ r1).take a1.length := by
      rw [List.take_left]
    rw [heq, List.take_append_eq_append_take, List.take_of_length_le hd] at h1
    exact h1
  by_cases hd0 : a1.length - a2.length = 0
  · rw [hd0, List.take_zero, List.append_nil] at ha1eq
    refine ⟨ha1eq, ?_⟩
    rw [ha1eq] at heq
    exact List.append_cancel_left heq
  · exfalso
    have htake_ne : r2.take (a1.length - a2.length) ≠ [] := by
      intro hc
      have := congrArg List.length hc
      simp only [List.length_take, List.length_nil] at this
      omega
    have hlast : a1.getLast? = (r2.take (a1.length - a2.length)).getLast? := by
      conv_lhs => rw [ha1eq]
      exact List.getLast?_append_of_ne_nil _ htake_ne
    have hg := List.getLast?_eq_getLast _ htake_ne
    rw [ha1, hg] at hlast
    have hcmem : (r2.take (a1.length - a2.length)).getLast htake_ne ∈ r2 :=
      List.take_subset _ _ (List.getLast_mem htake_ne)
    have hdig := h2 _ hcmem
    have : c1 = (r2.take (a1.length - a2.length)).getLast htake_ne :=
      Option.some.inj hlast
    rw [← this] at hdig
    rw [hc1] at hdig
    exact Bool.false_ne_true hdig

lemma append_digit_run_inj (a1 a2 r1 r2 : List Char)
    (h1 : ∀ c ∈ r1, c.isDigit = true) (h2 : ∀ c ∈ r2, c.isDigit = true)
    (c1 c2 : Char) (ha1 : a1.getLast? = some c1) (hc1 : c1.isDigit = false)
    (ha2 : a2.getLast? = some c2) (hc2 : c2.isDigit = false)
    (heq : a1 ++ r1 = a2 ++ r2) : a1 = a2 ∧ r1 = r2 := by
  rcases le_total r1.length r2.length with hle | hle
  · exact append_digit_run_aux a1 a2 r1 r2 h2 c1 ha1 hc1 hle heq
  · obtain ⟨e1, e2⟩ := append_digit_run_aux a2 a1 r2 r1 h1 c2 ha2 hc2 hle heq.symm
    exact ⟨e1.symm, e2.symm⟩

lemma suffixed_key_data (s : String) (i : ℕ) :
    (s ++ "_" ++ Nat.repr i).data = (s.data ++ ['_']) ++ digitsRec i := by
  rw [String.data_append, String.data_append, repr_eq_digitsRec]

lemma suffixed_key_inj (s1 s2 : String) (i j : ℕ)
    (h : s1 ++ "_" ++ Nat.repr i = s2 ++ "_" ++ Nat.repr j) : s1 = s2 ∧ i = j := by
  have hdata := congrArg String.data h
  rw [suffixed_key_data, suffixed_key_data] at hdata
  obtain ⟨e1, e2⟩ := append_digit_run_inj _ _ _ _ (digitsRec_digits i) (digitsRec_digits j)
    '_' '_' (List.getLast?_concat _) (by decide) (List.getLast?_concat _) (by decide) hdata
  constructor
  · have : s1.data = s2.data := by
      have hdl := congrArg List.dropLast e1
      rwa [List.dropLast_concat, List.dropLast_concat] at hdl
    exact String.ext this
  · rw [← ofDigits_digitsRec i, ← ofDigits_digitsRec j, e2]

lemma suffixed_ne_plain (s t : String) (i : ℕ)
    (hlast : t.data.getLast?.map Char.isDigit = some false) :
    s ++ "_" ++ Nat.repr i ≠ t := by
  intro h
  have hdata := congrArg String.data h
  rw [suffixed_key_data] at hdata
  have hlhs : ((s.data ++ ['_']) ++ digitsRec i).getLast? =
      some ((digitsRec i).getLast (digitsRec_ne_nil i)) := by
    rw [List.getLast?_append_of_ne_nil _ (digitsRec_ne_nil i)]
    exact List.getLast?_eq_getLast _ (digitsRec_ne_nil i)
  rw [hdata] at hlhs
  rw [hlhs] at hlast
  simp only [Option.map_some'] at hlast
  have hdig := digitsRec_digits i _ (List.getLast_mem (digitsRec_ne_nil i))
  rw [Option.some.inj hlast] at hdig
  exact Bool.false_ne_true hdig

lemma updateEntry_of_not_mem (d : List (String × ℚ)) (k : String) (v : ℚ)
    (h : k ∉ d.map Prod.fst) : updateEntry d k v = d ++ [(k, v)] := by
  rw [updateEntry, if_neg]
  intro hc
  rcases List.any_eq_true.mp hc with ⟨kv, hkv, hbeq⟩
  apply h
  rw [show k = kv.1 from (beq_iff_eq.mp hbeq).symm]
  exact List.mem_map_of_mem Prod.fst hkv

lemma dictUpdate_of_fresh (d new : List (String × ℚ))
    (hk : ∀ x ∈ new.map Prod.fst, x ∉ d.map Prod.fst)
    (hnd : (new.map Prod.fst).Nodup) : dictUpdate d new = d ++ new := by
  induction new generalizing d with
  | nil => simp [dictUpdate]
  | cons kv t ih =>
    simp only [List.map_cons, List.nodup_cons] at hnd
    rw [dictUpdate, List.foldl_cons,
      show updateEntry d kv.1 kv.2 = d ++ [(kv.1, kv.2)] from
        updateEntry_of_not_mem d kv.1 kv.2 (hk _ (by simp)), ]
    rw [show (t.foldl (fun acc kv2 => updateEntry acc kv2.1 kv2.2)
        (d ++ [(kv.1, kv.2)])) = dictUpdate (d ++ [(kv.1, kv.2)]) t from rfl]
    rw [ih (d ++ [(kv.1, kv.2)]) (by
      intro x hx
      simp only [List.map_append, List.mem_append, List.map_cons, List.map_nil]
      rintro (hxd | hxkv)
      · exact hk x (by simp [hx]) hxd
      · simp only [List.mem_singleton] at hxkv
        apply hnd.1
        rw [← hxkv]
        exact hx) hnd.2]
    simp

lemma dictUpdate_assoc (a b c : List (String × ℚ)) :
    dictUpdate (dictUpdate a b) c = dictUpdate a (b ++ c) := by
  rw [dictUpdate, dictUpdate, dictUpdate, List.foldl_append]

lemma foldlM_dictUpdate {α : Type}
    (body : List (String × ℚ) → α → Except String (List (String × ℚ)))
    (f : α → List (String × ℚ)) (items : List α)
    (hbody : ∀ a x, x ∈ items → body a x = .ok (dictUpdate a (f x))) :
    ∀ acc, items.foldlM body acc = .ok (dictUpdate acc ((items.map f).flatten)) := by
  induction items with
  | nil =>
    intro acc
    show pure acc = Except.ok (dictUpdate acc [])
    rfl
  | cons x t ih =>
    intro acc
    rw [List.foldlM_cons, hbody acc x (List.mem_cons_self _ _)]
    show t.foldlM body (dictUpdate acc (f x)) = _
    rw [ih (fun a y hy => hbody a y (List.mem_cons_of_mem _ hy)) (dictUpdate acc (f x))]
    rw [dictUpdate_assoc]
    rfl

lemma lossEntries_of_ok {c : SetCriterion} {E : ExtFuns} {o : LayerOutputs}
    {targets : List Target} {indices : Indices} {np : ℚ} {log : Bool} {loss : String}
    {d : List (String × ℚ)}
    (h : c.get_loss E loss o targets indices np log = .ok d) :
    c.get_loss E loss o targets indices np log =
      .ok (lossEntries c E loss o targets indices np log) ∧
    lossEntries c E loss o targets indices np log = d := by
  have he : lossEntries c E loss o targets indices np log = d := by
    unfold lossEntries; rw [h]; rfl
  exact ⟨by rw [he, h], he⟩

lemma get_loss_ok (c : SetCriterion) (E : ExtFuns) (o : LayerOutputs)
    (targets : List Target) (indices : Indices) (np : ℚ) (log : Bool) (loss : String)
    (hw : c.with_weights = false)
    (hreg : loss ∈ (["labels", "cardinality", "points", "masks"] : List String))
    (hmask : loss = "masks" → o.pred_masks.isSome = true) :
    c.get_loss E loss o targets indices np log =
      .ok (lossEntries c E loss o targets indices np log) ∧
    (lossEntries c E loss o targets indices np log).map Prod.fst = lossKeys loss log := by
  fin_cases hreg
  · have h : c.get_loss E "labels" o targets indices np log =
        .ok ([("loss_ce",
            sigmoid_focal_loss E o.pred_logits
              ((List.range o.pred_logits.length).map (fun b =>
                (List.range (o.pred_logits.headD []).length).map (fun q =>
                  ((List.range ((((o.pred_logits.headD []).headD []).length)+1)).map
                    (fun k => if ((getSrcPermutationIdx indices).zip
                        (((List.range indices.length).map
                          (fun i => (indices.getD i ([], [])).2.map
                            (fun j => (targets.getD i default).labels.getD j 0))).flatten)).foldl
                        overrideAt (fun _ _ => c.num_classes) b q = k then (1:ℚ) else 0)).dropLast)))
              np c.focal_alpha 2 * (((o.pred_logits.headD []).length : ℕ) : ℚ))] ++
          (if log then
            [("class_error",
              100 - E.accuracy ((getSrcPermutationIdx indices).map
                  (fun p => (o.pred_logits.getD p.1 []).getD p.2 []))
                (((List.range indices.length).map
                  (fun i => (indices.getD i ([], [])).2.map
                    (fun j => (targets.getD i default).labels.getD j 0))).flatten))]
           else [])) := by
      show c.loss_labels E o targets indices np log = _
      unfold SetCriterion.loss_labels
      rw [hw]
      rfl
    obtain ⟨h1, h2⟩ := lossEntries_of_ok h
    refine ⟨h1, ?_⟩
    rw [h2]
    cases log <;> simp [lossKeys]
  · obtain ⟨h1, h2⟩ := @lossEntries_of_ok c E o targets indices np log "cardinality" _ rfl
    refine ⟨h1, ?_⟩
    rw [h2]
    simp [SetCriterion.loss_cardinality, lossKeys]
  · obtain ⟨h1, h2⟩ := @lossEntries_of_ok c E o targets indices np log "points" _ rfl
    refine ⟨h1, ?_⟩
    rw [h2]
    simp [SetCriterion.loss_points, lossKeys]
  · obtain ⟨m, hm⟩ := Option.isSome_iff_exists.mp (hmask rfl)
    have h : c.get_loss E "masks" o targets indices np log =
        .ok [("loss_mask", E.mask_focal m targets indices np),
             ("loss_dice", E.mask_dice m targets indices np)] := by
      show c.loss_masks E o targets indices np = _
      unfold SetCriterion.loss_masks
      rw [hm]
    obtain ⟨h1, h2⟩ := lossEntries_of_ok h
    refine ⟨h1, ?_⟩
    rw [h2]
    simp [lossKeys]

lemma lossKeys_nodup (a : String) (log : Bool) : (lossKeys a log).Nodup := by
  unfold lossKeys
  split_ifs <;> decide

lemma lossOf_mem (a : String) (log : Bool) (k : String) (hk : k ∈ lossKeys a log) :
    lossOf k = a := by
  unfold lossKeys at hk
  split_ifs at hk <;>
    first
      | (subst a; fin_cases hk <;> decide)
      | exact absurd hk (List.not_mem_nil k)

lemma mem_lossKeys_last (a : String) (log : Bool) (k : String) (hk : k ∈ lossKeys a log) :
    k.data.getLast?.map Char.isDigit = some false := by
  unfold lossKeys at hk
  split_ifs at hk <;>
    first
      | (fin_cases hk <;> decide)
      | exact absurd hk (List.not_mem_nil k)

lemma lossKeys_disjoint (a b : String) (l1 l2 : Bool) (hab : a ≠ b) :
    List.Disjoint (lossKeys a l1) (lossKeys b l2) :=
  fun _ hk1 hk2 => hab ((lossOf_mem a l1 _ hk1).symm.trans (lossOf_mem b l2 _ hk2))

lemma lossEntries_log_irrel (c : SetCriterion) (E : ExtFuns) (loss : String)
    (o : LayerOutputs) (targets : List Target) (indices : Indices) (np : ℚ)
    (b1 b2 : Bool) (h : loss ≠ "labels") :
    lossEntries c E loss o targets indices np b1 =
      lossEntries c E loss o targets indices np b2 := by
  unfold lossEntries SetCriterion.get_loss
  rw [if_neg h, if_neg h]

lemma get_loss_log_irrel (c : SetCriterion) (E : ExtFuns) (loss : String)
    (o : LayerOutputs) (targets : List Target) (indices : Indices) (np : ℚ)
    (b1 b2 : Bool) (h : loss ≠ "labels") :
    c.get_loss E loss o targets indices np b1 =
      c.get_loss E loss o targets indices np b2 := by
  unfold SetCriterion.get_loss
  rw [if_neg h, if_neg h]

lemma flatten_map_eq_filter {α β : Type} (l : List α) (p : α → Bool) (f : α → List β)
    (h : ∀ x ∈ l, p x = false → f x = []) :
    (l.map f).flatten = ((l.filter p).map f).flatten := by
  induction l with
  | nil => rfl
  | cons a t ih =>
    have iht := ih (fun x hx => h x (List.mem_cons_of_mem a hx))
    simp only [List.map_cons, List.flatten_cons, List.filter_cons]
    by_cases hp : p a = true
    · rw [if_pos hp]
      simp only [List.map_cons, List.flatten_cons, iht]
    · rw [if_neg hp, h a (List.mem_cons_self a t) (by simpa using hp), List.nil_append, iht]

/-- The complete key multiset produced by `SetCriterion.forward` — the
final-layer keys followed by the suffixed per-auxiliary-layer keys — has
no duplicates, so the Python `dict.update` folds only ever append. -/
lemma keys_nodup_assembly (losses : List String) (hnd : losses.Nodup) (n : ℕ) :
    ((losses.map (fun l => lossKeys l true)).flatten ++
      ((List.range n).map (fun i =>
        ((losses.filter (fun l => l != "masks")).map (fun l =>
          (lossKeys l false).map (fun k => k ++ "_" ++ Nat.repr i))).flatten)).flatten).Nodup := by
  have hA : ((losses.map (fun l => lossKeys l true)).flatten).Nodup := by
    rw [List.nodup_flatten]
    constructor
    · intro l' hl'
      rcases List.mem_map.mp hl' with ⟨a, _, rfl⟩
      exact lossKeys_nodup a true
    · rw [List.pairwise_map]
      exact List.Pairwise.imp (fun hab => lossKeys_disjoint _ _ _ _ hab) hnd
  have hC : (((List.range n).map (fun i =>
      ((losses.filter (fun l => l != "masks")).map (fun l =>
        (lossKeys l false).map (fun k => k ++ "_" ++ Nat.repr i))).flatten)).flatten).Nodup := by
    rw [List.nodup_flatten]
    constructor
    · intro L hL
      rcases List.mem_map.mp hL with ⟨i, _, rfl⟩
      rw [List.nodup_flatten]
      constructor
      · intro l' hl'
        rcases List.mem_map.mp hl' with ⟨a, _, rfl⟩
        exact (lossKeys_nodup a false).map
          (fun k1 k2 h12 => (suffixed_key_inj k1 k2 i i h12).1)
      · rw [List.pairwise_map]
        refine List.Pairwise.imp ?_ (hnd.filter _)
        intro a b hab x hx1 hx2
        rcases List.mem_map.mp hx1 with ⟨k1, hk1, rfl⟩
        rcases List.mem_map.mp hx2 with ⟨k2, hk2, heq⟩
        obtain ⟨hk, _⟩ := suffixed_key_inj k2 k1 i i heq
        exact lossKeys_disjoint a b false false hab hk1 (hk ▸ hk2)
    · rw [List.pairwise_map]
      refine List.Pairwise.imp ?_ (List.pairwise_lt_range n)
      intro i j hij x hxi hxj
      rcases List.mem_flatten.mp hxi with ⟨l1, hl1, hx1⟩
      rcases List.mem_map.mp hl1 with ⟨a, _, rfl⟩
      rcases List.mem_map.mp hx1 with ⟨k1, _, hk1⟩
      rcases List.mem_flatten.mp hxj with ⟨l2, hl2, hx2⟩
      rcases List.mem_map.mp hl2 with ⟨b, _, rfl⟩
      rcases List.mem_map.mp hx2 with ⟨k2, _, hk2⟩
      exact Nat.ne_of_lt hij (suffixed_key_inj k1 k2 i j (hk1.trans hk2.symm)).2
  refine hA.append hC ?_
  intro x hx1 hx2
  rcases List.mem_flatten.mp hx1 with ⟨l1, hl1, hxk⟩
  rcases List.mem_map.mp hl1 with ⟨a, _, rfl⟩
  have hlast := mem_lossKeys_last a true x hxk
  rcases List.mem_flatten.mp hx2 with ⟨L, hL, hxL⟩
  rcases List.mem_map.mp hL with ⟨i, _, rfl⟩
  rcases List.mem_flatten.mp hxL with ⟨l2, hl2, hxk2⟩
  rcases List.mem_map.mp hl2 with ⟨b, _, rfl⟩
  rcases List.mem_map.mp hxk2 with ⟨k2, _, hk2⟩
  exact suffixed_ne_plain k2 x i hlast hk2

/-- Claim C2: `SetCriterion.forward` first computes the full requested
loss set on the final decoder layer's output with classification-error
logging enabled; then, since `aux_outputs` is present, for each auxiliary
layer `i` it recomputes the matching on that layer's outputs and computes
every requested loss except the mask loss with logging disabled, storing
each loss under its base key suffixed with `_i`.  The result dict is
exactly the concatenation of the final-layer entries with the per-layer
suffixed entries. -/
theorem set_criterion_forward_aux_structure
    (c : SetCriterion) (E : ExtFuns) (ctx : DistCtx) (outputs : Outputs)
    (targets : List Target) (auxs : List LayerOutputs) (np : ℚ)
    (haux : outputs.aux_outputs = some auxs)
    (hw : c.with_weights = false)
    (hreg : ∀ l ∈ c.losses, l ∈ (["labels", "cardinality", "points", "masks"] : List String))
    (hnd : c.losses.Nodup)
    (hmask : "masks" ∈ c.losses → outputs.pred_masks.isSome = true)
    (hnp : np = max ((if ctx.dist_avail then (((targets.map (fun t => t.labels.length)).sum : ℕ) : ℚ) + ctx.peer_sum else (((targets.map (fun t => t.labels.length)).sum : ℕ) : ℚ)) / (if ctx.dist_avail then (ctx.world_size : ℚ) else 1)) 1) :
    c.forward E ctx outputs targets = .ok (((c.losses.map (fun loss => lossEntries c E loss outputs.toLayer targets (c.matcher outputs.toLayer targets) np true)).flatten) ++ (((List.range auxs.length).map (fun i => ((c.losses.filter (fun l => l != "masks")).map (fun loss => (lossEntries c E loss (auxs.getD i default) targets (c.matcher (auxs.getD i default) targets) np false).map (fun kv => (kv.1 ++ "_" ++ Nat.repr i, kv.2)))).flatten)).flatten)) := by
  have h1 : c.losses.foldlM
      (fun acc loss =>
        (c.get_loss E loss outputs.toLayer targets (c.matcher outputs.toLayer targets) np
            true).map (fun d => dictUpdate acc d)) [] =
      .ok (dictUpdate [] ((c.losses.map (fun loss => lossEntries c E loss outputs.toLayer targets (c.matcher outputs.toLayer targets) np true)).flatten)) := by
    refine foldlM_dictUpdate _ _ c.losses ?_ []
    intro a x hx
    rw [(get_loss_ok c E outputs.toLayer targets (c.matcher outputs.toLayer targets) np true x
        hw (hreg x hx) (fun hm => hmask (hm ▸ hx))).1]
    rfl
  have hbody2 : ∀ (a : List (String × ℚ)) (i : ℕ), i ∈ List.range auxs.length →
      c.losses.foldlM (fun acc2 loss => if loss = "masks" then pure acc2 else (c.get_loss E loss (auxs.getD i default) targets (c.matcher (auxs.getD i default) targets) np (if loss = "labels" then false else true)).map (fun d => dictUpdate acc2 (d.map (fun kv => (kv.1 ++ "_" ++ Nat.repr i, kv.2))))) a = .ok (dictUpdate a (((c.losses.filter (fun l => l != "masks")).map (fun loss => (lossEntries c E loss (auxs.getD i default) targets (c.matcher (auxs.getD i default) targets) np false).map (fun kv => (kv.1 ++ "_" ++ Nat.repr i, kv.2)))).flatten)) := by
    intro a i _
    have hb : ∀ (a2 : List (String × ℚ)) (x : String), x ∈ c.losses →
        (if x = "masks" then pure a2 else (c.get_loss E x (auxs.getD i default) targets (c.matcher (auxs.getD i default) targets) np (if x = "labels" then false else true)).map (fun d => dictUpdate a2 (d.map (fun kv => (kv.1 ++ "_" ++ Nat.repr i, kv.2))))) = Except.ok (dictUpdate a2 (if x = "masks" then ([] : List (String × ℚ)) else (lossEntries c E x (auxs.getD i default) targets (c.matcher (auxs.getD i default) targets) np false).map (fun kv => (kv.1 ++ "_" ++ Nat.repr i, kv.2)))) := by
      intro a2 x hx
      by_cases hm : x = "masks"
      · rw [if_pos hm, if_pos hm]
        rfl
      · rw [if_neg hm, if_neg hm]
        by_cases hlab : x = "labels"
        · subst hlab
          rw [if_pos rfl,
            (get_loss_ok c E (auxs.getD i default) targets
              (c.matcher (auxs.getD i default) targets) np false "labels" hw (by decide)
              (fun h => absurd h (by decide))).1]
          rfl
        · rw [if_neg hlab,
            (get_loss_ok c E (auxs.getD i default) targets
              (c.matcher (auxs.getD i default) targets) np true x hw (hreg x hx)
              (fun h => absurd h hm)).1,
            lossEntries_log_irrel c E x (auxs.getD i default) targets
              (c.matcher (auxs.getD i default) targets) np true false hlab]
          rfl
    have hinner := foldlM_dictUpdate (fun acc2 loss => if loss = "masks" then pure acc2 else (c.get_loss E loss (auxs.getD i default) targets (c.matcher (auxs.getD i default) targets) np (if loss = "labels" then false else true)).map (fun d => dictUpdate acc2 (d.map (fun kv => (kv.1 ++ "_" ++ Nat.repr i, kv.2))))) (fun loss => if loss = "masks" then ([] : List (String × ℚ)) else (lossEntries c E loss (auxs.getD i default) targets (c.matcher (auxs.getD i default) targets) np false).map (fun kv => (kv.1 ++ "_" ++ Nat.repr i, kv.2))) c.losses hb a
    rw [hinner]
    have hzero : ∀ x ∈ c.losses, (x != "masks") = false → (if x = "masks" then ([] : List (String × ℚ)) else (lossEntries c E x (auxs.getD i default) targets (c.matcher (auxs.getD i default) targets) np false).map (fun kv => (kv.1 ++ "_" ++ Nat.repr i, kv.2))) = [] := by
      intro x _ hx
      rw [if_pos (by simpa using hx)]
    rw [flatten_map_eq_filter c.losses (fun l => l != "masks") (fun loss => if loss = "masks" then ([] : List (String × ℚ)) else (lossEntries c E loss (auxs.getD i default) targets (c.matcher (auxs.getD i default) targets) np false).map (fun kv => (kv.1 ++ "_" ++ Nat.repr i, kv.2))) hzero]
    exact congrArg (fun L => Except.ok (dictUpdate a L)) (congrArg List.flatten
      (List.map_congr_left (fun x hx => by
        rw [if_neg (by simpa using List.of_mem_filter hx)])))
  have hFINkeys : (((c.losses.map (fun loss => lossEntries c E loss outputs.toLayer targets (c.matcher outputs.toLayer targets) np true)).flatten)).map Prod.fst = (c.losses.map (fun l => lossKeys l true)).flatten := by
    rw [List.map_flatten, List.map_map]
    refine congrArg List.flatten (List.map_congr_left ?_)
    intro l hl
    exact (get_loss_ok c E outputs.toLayer targets (c.matcher outputs.toLayer targets) np true l
      hw (hreg l hl) (fun hm => hmask (hm ▸ hl))).2
  have hAUXkeys : ((((List.range auxs.length).map (fun i => ((c.losses.filter (fun l => l != "masks")).map (fun loss => (lossEntries c E loss (auxs.getD i default) targets (c.matcher (auxs.getD i default) targets) np false).map (fun kv => (kv.1 ++ "_" ++ Nat.repr i, kv.2)))).flatten)).flatten)).map Prod.fst = (((List.range auxs.length).map (fun i => ((c.losses.filter (fun l => l != "masks")).map (fun l => (lossKeys l false).map (fun k => k ++ "_" ++ Nat.repr i))).flatten)).flatten) := by
    rw [List.map_flatten, List.map_map]
    refine congrArg List.flatten (List.map_congr_left ?_)
    intro i _
    show (((c.losses.filter (fun l => l != "masks")).map (fun loss => (lossEntries c E loss (auxs.getD i default) targets (c.matcher (auxs.getD i default) targets) np false).map (fun kv => (kv.1 ++ "_" ++ Nat.repr i, kv.2)))).flatten).map Prod.fst = _
    rw [List.map_flatten, List.map_map]
    refine congrArg List.flatten (List.map_congr_left ?_)
    intro l hl
    have hll : l ∈ c.losses := List.mem_of_mem_filter hl
    have hne : l ≠ "masks" := by simpa using List.of_mem_filter hl
    show ((lossEntries c E l (auxs.getD i default) targets
        (c.matcher (auxs.getD i default) targets) np false).map (fun kv => (kv.1 ++ "_" ++ Nat.repr i, kv.2))).map Prod.fst =
      (lossKeys l false).map (fun k => k ++ "_" ++ Nat.repr i)
    rw [List.map_map, ← (get_loss_ok c E (auxs.getD i default) targets
        (c.matcher (auxs.getD i default) targets) np false l hw (hreg l hll)
        (fun hm => absurd hm hne)).2, List.map_map]
    rfl
  have hkeys : ((((c.losses.map (fun loss => lossEntries c E loss outputs.toLayer targets (c.matcher outputs.toLayer targets) np true)).flatten) ++ (((List.range auxs.length).map (fun i => ((c.losses.filter (fun l => l != "masks")).map (fun loss => (lossEntries c E loss (auxs.getD i default) targets (c.matcher (auxs.getD i default) targets) np false).map (fun kv => (kv.1 ++ "_" ++ Nat.repr i, kv.2)))).flatten)).flatten)).map Prod.fst).Nodup := by
    rw [List.map_append, hFINkeys, hAUXkeys]
    exact keys_nodup_assembly c.losses hnd auxs.length
  have hmain : c.forward E ctx outputs targets =
      (List.range auxs.length).foldlM (fun acc i => c.losses.foldlM (fun acc2 loss => if loss = "masks" then pure acc2 else (c.get_loss E loss (auxs.getD i default) targets (c.matcher (auxs.getD i default) targets) np (if loss = "labels" then false else true)).map (fun d => dictUpdate acc2 (d.map (fun kv => (kv.1 ++ "_" ++ Nat.repr i, kv.2))))) acc) (dictUpdate [] ((c.losses.map (fun loss => lossEntries c E loss outputs.toLayer targets (c.matcher outputs.toLayer targets) np true)).flatten)) := by
    simp only [SetCriterion.forward, haux]
    rw [← hnp, h1]
  rw [hmain, foldlM_dictUpdate _ _ (List.range auxs.length) hbody2 (dictUpdate [] ((c.losses.map (fun loss => lossEntries c E loss outputs.toLayer targets (c.matcher outputs.toLayer targets) np true)).flatten)),
    dictUpdate_assoc, dictUpdate_of_fresh [] _ (fun x _ => by simp) hkeys, List.nil_append]

/-- Concrete instantiation of `set_criterion_forward_aux_structure`:
one auxiliary layer, the labels/points/cardinality losses. -/
theorem set_criterion_forward_aux_structure_witness :
    critEx.losses.Nodup ∧
    critEx.forward extZero ctxEx outEx tgtEx = .ok (((critEx.losses.map (fun loss => lossEntries critEx extZero loss outEx.toLayer tgtEx (critEx.matcher outEx.toLayer tgtEx) (max ((if ctxEx.dist_avail then (((tgtEx.map (fun t => t.labels.length)).sum : ℕ) : ℚ) + ctxEx.peer_sum else (((tgtEx.map (fun t => t.labels.length)).sum : ℕ) : ℚ)) / (if ctxEx.dist_avail then (ctxEx.world_size : ℚ) else 1)) 1) true)).flatten) ++ (((List.range [layerEx].length).map (fun i => ((critEx.losses.filter (fun l => l != "masks")).map (fun loss => (lossEntries critEx extZero loss ([layerEx].getD i default) tgtEx (critEx.matcher ([layerEx].getD i default) tgtEx) (max ((if ctxEx.dist_avail then (((tgtEx.map (fun t => t.labels.length)).sum : ℕ) : ℚ) + ctxEx.peer_sum else (((tgtEx.map (fun t => t.labels.length)).sum : ℕ) : ℚ)) / (if ctxEx.dist_avail then (ctxEx.world_size : ℚ) else 1)) 1) false).map (fun kv => (kv.1 ++ "_" ++ Nat.repr i, kv.2)))).flatten)).flatten)) :=
  ⟨by decide,
    set_criterion_forward_aux_structure critEx extZero ctxEx outEx tgtEx [layerEx] _
      rfl rfl (by decide) (by decide) (fun h => absurd h (by decide)) rfl⟩
